import Mathlib

/-!
# Ultra Log Manager (ULM) — verification of the core pipeline

A shallow embedding of the ULM Unreal Engine plugin
(`Plugins/Source/ULM`): the per-channel token-bucket rate limiter, the
channel registry with hierarchical effective settings, the bounded
ingestion queue, the in-memory store with its memory-budget eviction and
per-channel caps, and the log-file rotation tracker.

Modelling conventions:
* `FString` is modelled as `List Char` (`Str`), so that the splitting and
  parsing done by the rotation code can be reasoned about directly.
* `float`/`double` values are modelled as exact rationals (`ℚ`);
  casts of non-negative floating values to integer types are modelled as
  `Int.toNat ∘ Rat.floor` (truncation toward zero of a non-negative value).
* `TMap` is modelled as an association list in insertion order, matching
  the iteration order the code relies on.
* Thread interleavings are not modelled; every operation is a pure state
  transformer, which matches the code's behaviour under its locks.
-/

namespace ULM

/-- Strings (`FString`) are lists of characters. -/
abbrev Str := List Char

/-! ## Decimal digits, padding and parsing helpers

These model `FString::Printf` with `%03d`/`%Y%m%d`-style zero-padded
numeric fields, and `FCString::Atoi`. -/

/-- The character for a single decimal digit (`0 ≤ d ≤ 9`). -/
def digitChar (d : Nat) : Char :=
  match d with
  | 0 => '0' | 1 => '1' | 2 => '2' | 3 => '3' | 4 => '4'
  | 5 => '5' | 6 => '6' | 7 => '7' | 8 => '8' | _ => '9'

/-- Numeric value of a digit character, as used by `Atoi`. -/
def charVal (c : Char) : Nat := c.toNat - 48

/-- Digit test used when parsing a number prefix. -/
def isDigitChar (c : Char) : Bool := decide ('0' ≤ c) && decide (c ≤ '9')

/-- Little-endian list of decimal digit characters of `n` (empty for 0);
structurally recursive on a fuel bound, `n` itself being enough fuel. -/
def natToDigitsRev : Nat → Nat → List Char
  | 0, _ => []
  | fuel + 1, n =>
    if n = 0 then [] else digitChar (n % 10) :: natToDigitsRev fuel (n / 10)

/-- Decimal rendering of a natural number (what `%d` prints). -/
def decimalStr (n : Nat) : Str :=
  if n = 0 then ['0'] else (natToDigitsRev n n).reverse

/-- Left-pad `l` with `c` up to width `w` (what `%0Nd` prints). -/
def leftPad (w : Nat) (c : Char) (l : List Char) : List Char :=
  List.replicate (w - l.length) c ++ l

/-- `%03d`-style rendering of a non-negative integer with width `w`. -/
def padNum (w : Nat) (n : Nat) : Str := leftPad w '0' (decimalStr n)

/-- Accumulating decimal parse of a digit list. -/
def digitsVal (l : List Char) : Nat :=
  l.foldl (fun a c => a * 10 + charVal c) 0

/-- `FCString::Atoi`: parse the leading run of digits (0 if none). -/
def atoi (l : Str) : Nat := digitsVal (l.takeWhile isDigitChar)

/-- Split a character list at every occurrence of `sep`
(`FString::ParseIntoArray` before culling empties). -/
def splitChar (sep : Char) : List Char → List (List Char)
  | [] => [[]]
  | c :: cs =>
    match splitChar sep cs with
    | [] => [[]]
    | p :: ps => if c = sep then [] :: p :: ps else (c :: p) :: ps

/-- `FString::ParseIntoArray` with `InCullEmpty = true`. -/
def parseIntoArray (sep : Char) (l : Str) : List Str :=
  (splitChar sep l).filter (fun p => !p.isEmpty)

/-- `FPaths::GetCleanFilename`: the part after the last path separator. -/
def getCleanFilename (l : Str) : Str :=
  (l.reverse.takeWhile (fun c => !(c = '/'))).reverse

/-- `FPaths::GetPath`: the directory part, up to (excluding) the last
path separator. -/
def getPath (l : Str) : Str :=
  ((l.reverse.dropWhile (fun c => !(c = '/'))).drop 1).reverse

/-- `FPaths::GetBaseFilename`: clean filename with its extension (the part
from the last dot on) removed. -/
def getBaseFilename (l : Str) : Str :=
  let f := getCleanFilename l
  if '.' ∈ f then ((f.reverse.dropWhile (fun c => !(c = '.'))).drop 1).reverse
  else f

/-! ## Verbosity (`EULMVerbosity`) -/

/-- `EULMVerbosity : uint8` with `Message < Warning < Error < Critical`. -/
inductive Verbosity where
  | Message | Warning | Error | Critical
deriving DecidableEq, Repr

/-- Underlying `uint8` value of a verbosity. -/
def Verbosity.toNat : Verbosity → Nat
  | .Message => 0 | .Warning => 1 | .Error => 2 | .Critical => 3

/-- The C++ `<` comparison on the `uint8`-backed enum. -/
def verbLt (a b : Verbosity) : Bool := decide (a.toNat < b.toNat)

/-- `FMath::Max` on the `uint8`-backed enum. -/
def verbMax (a b : Verbosity) : Verbosity :=
  if a.toNat ≤ b.toNat then b else a

/-! ## Channel configuration and state (`ULMChannel.h`) -/

/-- `FULMRateLimit`: token-bucket parameters. -/
structure RateLimit where
  tokensPerSecond : ℚ
  burstCapacity : ℤ
deriving DecidableEq, Repr

/-- Default-constructed `FULMRateLimit` (`TokensPerSecond = 20`,
`BurstCapacity = 20`). -/
def defaultRateLimit : RateLimit := { tokensPerSecond := 20, burstCapacity := 20 }

/-- `FLinearColor` (only equality with `White` matters to the code). -/
structure LinearColor where
  r : ℚ
  g : ℚ
  b : ℚ
  a : ℚ
deriving DecidableEq, Repr

/-- `FLinearColor::White`. -/
def whiteColor : LinearColor := { r := 1, g := 1, b := 1, a := 1 }

/-- `FULMChannelConfig`: declared per-channel policy. -/
structure ChannelConfig where
  enabled : Bool
  minVerbosity : Verbosity
  displayColor : LinearColor
  rateLimit : RateLimit
  maxLogEntries : ℤ
  inheritFromParent : Bool
deriving DecidableEq, Repr

/-- Default-constructed `FULMChannelConfig`. -/
def defaultChannelConfig : ChannelConfig :=
  { enabled := true
    minVerbosity := .Message
    displayColor := whiteColor
    rateLimit := defaultRateLimit
    maxLogEntries := 1000
    inheritFromParent := true }

/-- `FULMChannelState`: resolved runtime channel state, including the
token-bucket counters. -/
structure ChannelState where
  effectiveEnabled : Bool
  effectiveMinVerbosity : Verbosity
  effectiveColor : LinearColor
  effectiveRateLimit : RateLimit
  effectiveMaxEntries : ℤ
  currentTokens : ℚ
  lastRefillTime : ℚ
  parentChannel : Str
  childChannels : List Str
deriving DecidableEq, Repr

/-- Default-constructed `FULMChannelState`. -/
def defaultChannelState : ChannelState :=
  { effectiveEnabled := true
    effectiveMinVerbosity := .Message
    effectiveColor := whiteColor
    effectiveRateLimit := defaultRateLimit
    effectiveMaxEntries := 1000
    currentTokens := 20
    lastRefillTime := 0
    parentChannel := []
    childChannels := [] }

/-! ## Token bucket (`FULMChannelState::CanLog` / `RefillTokens`) -/

/-- `FULMChannelState::RefillTokens`: first use (sentinel
`LastRefillTime == 0.0`) fills the bucket to capacity; afterwards a
positive elapsed time adds `elapsed × rate` tokens, clamped at capacity. -/
def refillTokens (t : ℚ) (s : ChannelState) : ChannelState :=
  if s.lastRefillTime = 0 then
    { s with lastRefillTime := t
             currentTokens := (s.effectiveRateLimit.burstCapacity : ℚ) }
  else
    let delta := t - s.lastRefillTime
    if 0 < delta then
      { s with
          currentTokens :=
            min (s.currentTokens + delta * s.effectiveRateLimit.tokensPerSecond)
              (s.effectiveRateLimit.burstCapacity : ℚ)
          lastRefillTime := t }
    else s

/-- `FULMChannelState::CanLog`: admission check plus token consumption. -/
def canLogState (v : Verbosity) (t : ℚ) (s : ChannelState) : Bool × ChannelState :=
  if s.effectiveEnabled = false ∨ verbLt v s.effectiveMinVerbosity then
    (false, s)
  else
    let s1 := refillTokens t s
    if 1 ≤ s1.currentTokens then
      (true, { s1 with currentTokens := s1.currentTokens - 1 })
    else (false, s1)

/-- A sequence of `CanLog` calls at the given instants, returning the
results in order together with the final state. -/
def canLogRun (v : Verbosity) (s : ChannelState) : List ℚ → List Bool × ChannelState
  | [] => ([], s)
  | t :: ts =>
    let r := canLogState v t s
    let rest := canLogRun v r.2 ts
    (r.1 :: rest.1, rest.2)

/-- A channel state with the given policy and token-bucket counters (all
other fields default): the shape of states the rate-limit claims range
over. -/
def tokenState (minV : Verbosity) (R : ℚ) (C : ℤ) (tokens tLast : ℚ) : ChannelState :=
  { defaultChannelState with
      effectiveMinVerbosity := minV
      effectiveRateLimit := ⟨R, C⟩
      currentTokens := tokens
      lastRefillTime := tLast }

/-- `FULMChannelState::UpdateEffectiveSettings`: inheritance resolution of
the effective snapshot from the channel's own config and (optionally) its
parent's resolved state. -/
def updateEffectiveSettings (cfg : ChannelConfig) (parent : Option ChannelState)
    (s : ChannelState) : ChannelState :=
  match parent with
  | some p =>
    if cfg.inheritFromParent then
      { s with
          effectiveEnabled := p.effectiveEnabled && cfg.enabled
          effectiveMinVerbosity := verbMax p.effectiveMinVerbosity cfg.minVerbosity
          effectiveColor :=
            if cfg.displayColor ≠ whiteColor then cfg.displayColor else p.effectiveColor
          effectiveRateLimit :=
            if 0 < cfg.rateLimit.tokensPerSecond then cfg.rateLimit
            else p.effectiveRateLimit
          effectiveMaxEntries := cfg.maxLogEntries }
    else
      { s with
          effectiveEnabled := cfg.enabled
          effectiveMinVerbosity := cfg.minVerbosity
          effectiveColor := cfg.displayColor
          effectiveRateLimit := cfg.rateLimit
          effectiveMaxEntries := cfg.maxLogEntries }
  | none =>
    { s with
        effectiveEnabled := cfg.enabled
        effectiveMinVerbosity := cfg.minVerbosity
        effectiveColor := cfg.displayColor
        effectiveRateLimit := cfg.rateLimit
        effectiveMaxEntries := cfg.maxLogEntries }

/-! ## Association lists (model of `TMap`, iteration in insertion order) -/

/-- First value bound to `k`, if any (`TMap::Find`). -/
def alFind? {β : Type} (k : Str) : List (Str × β) → Option β
  | [] => none
  | p :: ps => if p.1 = k then some p.2 else alFind? k ps

/-- Replace the value of the first binding of `k`, or append a new
binding (`TMap::Emplace` / `FindOrAdd` followed by assignment). -/
def alEmplace {β : Type} (k : Str) (v : β) : List (Str × β) → List (Str × β)
  | [] => [(k, v)]
  | p :: ps => if p.1 = k then (k, v) :: ps else p :: alEmplace k v ps

/-- Modify the value of the first binding of `k` in place (mutation
through a `TMap::Find` pointer); no effect if `k` is unbound. -/
def alModify {β : Type} (k : Str) (f : β → β) : List (Str × β) → List (Str × β)
  | [] => []
  | p :: ps => if p.1 = k then (p.1, f p.2) :: ps else p :: alModify k f ps

/-- Remove every binding of `k` (`TMap::Remove`). -/
def alErase {β : Type} (k : Str) (l : List (Str × β)) : List (Str × β) :=
  l.filter (fun p => !(p.1 = k))

/-- The keys of an association list, in iteration order. -/
def alKeys {β : Type} (l : List (Str × β)) : List Str := l.map Prod.fst

/-! ## Channel registry (`FULMChannelRegistry`)

`RebuildEffectiveSettings` recurses through the child-channel graph and
`RegisterChannel` recurses up the (strictly shortening) parent chain; both
recursions are modelled with an explicit fuel bound, which in the running
system is bounded by the registry size. -/

/-- `FULMChannelRegistry`: config map, state map, and the default config
used when auto-registering missing ancestors. -/
structure ChannelRegistry where
  channelConfigs : List (Str × ChannelConfig)
  channelStates : List (Str × ChannelState)
  defaultConfig : ChannelConfig
deriving DecidableEq, Repr

/-- `ParseChannelHierarchy`: split a dotted name at its last dot into
(parent, local); no dot means no parent. -/
def parseChannelHierarchy (name : Str) : Str × Str :=
  if '.' ∈ name then
    (((name.reverse.dropWhile (fun c => !(c = '.'))).drop 1).reverse,
     (name.reverse.takeWhile (fun c => !(c = '.'))).reverse)
  else ([], name)

/-- `TArray::AddUnique`. -/
def addUnique (x : Str) (l : List Str) : List Str :=
  if x ∈ l then l else l ++ [x]

/-- `FULMChannelRegistry::RebuildEffectiveSettings`: recompute a channel's
effective snapshot from its config and parent state, then recurse into its
children (fuel-bounded). -/
def rebuildEffectiveSettingsFuel : Nat → ChannelRegistry → Str → ChannelRegistry
  | 0, reg, _ => reg
  | fuel + 1, reg, name =>
    match alFind? name reg.channelStates, alFind? name reg.channelConfigs with
    | some st, some cfg =>
      let parentState :=
        if st.parentChannel = [] then none
        else alFind? st.parentChannel reg.channelStates
      let st1 := updateEffectiveSettings cfg parentState st
      let reg1 := { reg with channelStates := alEmplace name st1 reg.channelStates }
      st.childChannels.foldl (fun r child => rebuildEffectiveSettingsFuel fuel r child) reg1
    | _, _ => reg

/-- `FULMChannelRegistry::UpdateChildChannels`: rebuild the effective
settings of every child of `parent`. -/
def updateChildChannelsFuel (fuel : Nat) (reg : ChannelRegistry) (parent : Str) :
    ChannelRegistry :=
  match alFind? parent reg.channelStates, alFind? parent reg.channelConfigs with
  | some st, some _ =>
    st.childChannels.foldl (fun r child => rebuildEffectiveSettingsFuel fuel r child) reg
  | _, _ => reg

/-- `FULMChannelRegistry::RegisterChannel`: auto-register a missing parent
(default config), emplace the config, build the new state with effective
settings resolved against the parent, link it into the parent's child
list, and rebuild the children of the (re-)registered channel. -/
def registerChannelFuel : Nat → ChannelRegistry → Str → ChannelConfig → ChannelRegistry
  | 0, reg, _, _ => reg
  | fuel + 1, reg, name, cfg =>
    if name = [] then reg
    else
      let parentName := (parseChannelHierarchy name).1
      let reg1 :=
        if parentName ≠ [] ∧ alFind? parentName reg.channelConfigs = none then
          registerChannelFuel fuel reg parentName reg.defaultConfig
        else reg
      let reg2 := { reg1 with channelConfigs := alEmplace name cfg reg1.channelConfigs }
      let parentState :=
        if parentName = [] then none else alFind? parentName reg2.channelStates
      let newState :=
        updateEffectiveSettings cfg parentState
          { defaultChannelState with parentChannel := parentName }
      let reg3 :=
        if parentName = [] then reg2
        else { reg2 with
                 channelStates :=
                   alModify parentName
                     (fun ps => { ps with childChannels := addUnique name ps.childChannels })
                     reg2.channelStates }
      let reg4 := { reg3 with channelStates := alEmplace name newState reg3.channelStates }
      updateChildChannelsFuel fuel reg4 name

/-- `RegisterChannel` with fuel large enough for the parent chain of
`name` and, in any reachable registry, the descendant rebuild. -/
def registryRegisterChannel (reg : ChannelRegistry) (name : Str) (cfg : ChannelConfig) :
    ChannelRegistry :=
  registerChannelFuel (name.length + reg.channelStates.length + 1) reg name cfg

/-- `FULMChannelRegistry::GetChannelConfig`: the stored config, or the
default config for an unknown channel. -/
def getChannelConfigReg (reg : ChannelRegistry) (name : Str) : ChannelConfig :=
  match alFind? name reg.channelConfigs with
  | some cfg => cfg
  | none => reg.defaultConfig

/-- `FULMChannelRegistry::CanChannelLog`: unknown channels deny; otherwise
the per-channel token bucket decides (and its counters are updated). -/
def canChannelLog (reg : ChannelRegistry) (c : Str) (v : Verbosity) (t : ℚ) :
    Bool × ChannelRegistry :=
  match alFind? c reg.channelStates with
  | none => (false, reg)
  | some st =>
    let r := canLogState v t st
    (r.1, { reg with channelStates := alEmplace c r.2 reg.channelStates })

/-! ## Master channel list (`ULM_CHANNEL_LIST`, `IsChannelInMasterList`) -/

/-- The twelve channel names of the master list, in macro order. -/
def masterChannelNames : List Str :=
  ["ULM".toList, "Gameplay".toList, "Network".toList, "Performance".toList,
   "Debug".toList, "AI".toList, "Physics".toList, "Audio".toList,
   "Animation".toList, "UI".toList, "Subsystem".toList, "Custom".toList]

/-- `IsChannelInMasterList` (`ULMSubsystem.cpp`): the macro expands to one
early-return equality test per master-list entry, falling through to
`false` — i.e. the disjunction of the twelve equality tests. -/
def isChannelInMasterList (n : Str) : Bool :=
  n = "ULM".toList || n = "Gameplay".toList || n = "Network".toList ||
  n = "Performance".toList || n = "Debug".toList || n = "AI".toList ||
  n = "Physics".toList || n = "Audio".toList || n = "Animation".toList ||
  n = "UI".toList || n = "Subsystem".toList || n = "Custom".toList

/-! ## Log entries, queue entries and entry sizes -/

/-- `FULMLogEntry` (timestamp and thread id carried as plain integers). -/
structure LogEntry where
  message : Str
  channel : Str
  verbosity : Verbosity
  timestamp : ℤ
  threadId : ℤ
deriving DecidableEq, Repr

/-- `FULMLogQueueEntry`: the transient copy placed on the ingestion queue. -/
structure QueueEntry where
  message : Str
  channel : Str
  verbosity : Verbosity
deriving DecidableEq, Repr

/-- `sizeof(FULMLogEntry)` on the modelled platform. The exact platform
value is irrelevant to every property proved here. -/
def SIZEOF_FULMLOGENTRY : Nat := 48

/-- `sizeof(TCHAR)` on the modelled platform. -/
def SIZEOF_TCHAR : Nat := 2

/-- `sizeof(FString)` on the modelled platform. -/
def SIZEOF_FSTRING : Nat := 16

/-- `FULMMemoryTracker::CalculateLogEntrySize`: struct size plus character
payload of the message and channel strings plus two string headers. -/
def calculateLogEntrySize (e : LogEntry) : Nat :=
  SIZEOF_FULMLOGENTRY +
    e.message.length * SIZEOF_TCHAR + e.channel.length * SIZEOF_TCHAR +
    SIZEOF_FSTRING * 2

/-- Total tracked size of a list of entries. -/
def entrySizeSum (l : List LogEntry) : Nat :=
  (l.map calculateLogEntrySize).sum

/-! ## Memory tracker (`FULMMemoryTracker`) -/

/-- `FULMMemoryTracker`: a signed total-usage counter
(`FThreadSafeCounter64`), an entry counter, a trimming-event counter, the
per-channel usage map (`SIZE_T` values) and the budget. -/
structure MemoryTracker where
  totalMemoryUsed : ℤ
  totalEntries : ℤ
  trimmingEvents : ℤ
  channelMemoryUsage : List (Str × Nat)
  memoryBudget : Nat
deriving DecidableEq, Repr

/-- `GetTotalMemoryUsage`: the counter value converted to `SIZE_T`. -/
def MemoryTracker.getTotal (m : MemoryTracker) : Nat := m.totalMemoryUsed.toNat

/-- `GetChannelMemoryUsage`: the map entry, or 0 for an unknown channel. -/
def MemoryTracker.channelUsage (m : MemoryTracker) (c : Str) : Nat :=
  (alFind? c m.channelMemoryUsage).getD 0

/-- `WouldExceedBudget`. -/
def MemoryTracker.wouldExceedBudget (m : MemoryTracker) (additional : Nat) : Bool :=
  decide (m.memoryBudget < m.getTotal + additional)

/-- `AddMemoryUsage`: bump the counters and the channel's map entry
(inserting it when absent). -/
def MemoryTracker.add (m : MemoryTracker) (c : Str) (sz : Nat) : MemoryTracker :=
  { m with
      totalMemoryUsed := m.totalMemoryUsed + sz
      totalEntries := m.totalEntries + 1
      channelMemoryUsage :=
        match alFind? c m.channelMemoryUsage with
        | some old => alEmplace c (old + sz) m.channelMemoryUsage
        | none => m.channelMemoryUsage ++ [(c, sz)] }

/-- `RemoveMemoryUsage`: decrement the counters; the channel's map entry
is clamped at 0 and removed when it reaches 0. -/
def MemoryTracker.remove (m : MemoryTracker) (c : Str) (sz : Nat) : MemoryTracker :=
  { m with
      totalMemoryUsed := m.totalMemoryUsed - sz
      totalEntries := m.totalEntries - 1
      channelMemoryUsage :=
        match alFind? c m.channelMemoryUsage with
        | some old =>
          let nw := if sz < old then old - sz else 0
          if nw = 0 then alErase c m.channelMemoryUsage
          else alEmplace c nw m.channelMemoryUsage
        | none => m.channelMemoryUsage }

/-! ## Subsystem state (`UULMSubsystem`) -/

/-- `FULMQueueDiagnostics` (the counters relevant to ingestion). -/
structure QueueDiagnostics where
  enqueueCount : ℤ
  dequeueCount : ℤ
  droppedCount : ℤ
  processedCount : ℤ
deriving DecidableEq, Repr

/-- The subsystem state shared by the ingestion, storage and eviction
paths. The file-write queue carries the entry whose formatted line was
queued; formatting and path generation do not feed back into this state. -/
structure Subsystem where
  registry : ChannelRegistry
  logEntries : List (Str × List LogEntry)
  memoryTracker : MemoryTracker
  messageQueue : List QueueEntry
  queueDiagnostics : QueueDiagnostics
  fileWriteQueue : List LogEntry
  fileLoggingEnabled : Bool
deriving DecidableEq, Repr

/-- `MAX_QUEUE_SIZE`. -/
def MAX_QUEUE_SIZE : ℤ := 10000

/-- `BATCH_SIZE` (`ULMLogProcessor.h`). -/
def BATCH_SIZE : Nat := 64

/-- The retained entries of a channel (empty for an unknown channel). -/
def entriesOf (s : Subsystem) (c : Str) : List LogEntry :=
  (alFind? c s.logEntries).getD []

/-- `UULMSubsystem::GetQueueSize`: pending count estimated from the
enqueue/dequeue counters, clamped at 0. -/
def getQueueSize (s : Subsystem) : ℤ :=
  max 0 (s.queueDiagnostics.enqueueCount - s.queueDiagnostics.dequeueCount)

/-- `UULMSubsystem::StoreLogEntryInternal`: admission check through the
registry (which consumes a token), then the non-blocking enqueue — at
capacity the entry is dropped and the drop counter bumped; otherwise the
entry is queued and the enqueue counter bumped. -/
def storeLogEntryInternal (s : Subsystem) (msg c : Str) (v : Verbosity) (t : ℚ) :
    Subsystem :=
  let adm := canChannelLog s.registry c v t
  let s1 := { s with registry := adm.2 }
  if adm.1 = false then s1
  else if MAX_QUEUE_SIZE ≤ getQueueSize s1 then
    { s1 with queueDiagnostics.droppedCount := s1.queueDiagnostics.droppedCount + 1 }
  else
    { s1 with
        messageQueue := s1.messageQueue ++ [⟨msg, c, v⟩]
        queueDiagnostics.enqueueCount := s1.queueDiagnostics.enqueueCount + 1 }

/-! ## Log processor batches (`FULMLogProcessor`) -/

/-- `FULMLogProcessor::ProcessBatch`: dequeue and process entries while
fewer than `BATCH_SIZE` have been processed and the queue is non-empty.
Returns the processed entries in order and the remaining queue. -/
def processBatchAux : Nat → List QueueEntry → List QueueEntry × List QueueEntry
  | 0, q => ([], q)
  | _ + 1, [] => ([], [])
  | n + 1, e :: rest =>
    let r := processBatchAux n rest
    (e :: r.1, r.2)

/-- One `ProcessBatch` call. -/
def processBatch (q : List QueueEntry) : List QueueEntry × List QueueEntry :=
  processBatchAux BATCH_SIZE q

/-- The shutdown path of `FULMLogProcessor::Run`: after the stop flag is
observed and the main loop exits, exactly one further `ProcessBatch` runs
before the thread terminates. -/
def processorFinalDrain (q : List QueueEntry) : List QueueEntry × List QueueEntry :=
  processBatch q

/-! ## Per-channel trimming and memory-budget eviction
(`UULMSubsystem::TrimChannelForMemory` / `TrimMemoryBudget`) -/

/-- `UULMSubsystem::TrimChannelForMemory`: remove the `n` oldest entries
of a channel (clamped to what exists) and release their tracked bytes. -/
def trimChannelForMemory (s : Subsystem) (c : Str) (n : ℤ) : Subsystem :=
  match alFind? c s.logEntries with
  | none => s
  | some entries =>
    if n ≤ 0 ∨ entries.length = 0 then s
    else
      let k := min n.toNat entries.length
      let memoryToRemove := entrySizeSum (entries.take k)
      { s with
          logEntries := alEmplace c (entries.drop k) s.logEntries
          memoryTracker := s.memoryTracker.remove c memoryToRemove }

/-- Insert into a list kept in descending order of usage
(`TArray::Sort` with `A.Value > B.Value`). -/
def insertDesc (x : Str × Nat) : List (Str × Nat) → List (Str × Nat)
  | [] => [x]
  | y :: ys => if y.2 < x.2 then x :: y :: ys else y :: insertDesc x ys

/-- Sort channel/usage pairs by usage, largest first. -/
def sortChannelsDesc (l : List (Str × Nat)) : List (Str × Nat) :=
  l.foldr insertDesc []

/-- The channel/usage list built and sorted by `TrimMemoryBudget`. -/
def channelsByUsage (s : Subsystem) : List (Str × Nat) :=
  sortChannelsDesc (s.logEntries.map (fun p => (p.1, s.memoryTracker.channelUsage p.1)))

/-- The target usage fraction chosen from the overage ratio:
above 120% of budget shrink to 50%, above 110% to 60%, else to 75%. -/
def trimTargetPercent (U B : Nat) : ℚ :=
  if (12 / 10 : ℚ) < (U : ℚ) / (B : ℚ) then 1 / 2
  else if (11 / 10 : ℚ) < (U : ℚ) / (B : ℚ) then 6 / 10
  else 3 / 4

/-- `TargetReduction`: bytes to free, `usage − budget × percent`
truncated to `SIZE_T`. -/
def trimTargetReduction (U B : Nat) : Nat :=
  (((U : ℚ) - (B : ℚ) * trimTargetPercent U B).floor).toNat

/-- The `EntriesToRemove` computation inside the `TrimMemoryBudget` loop
body: `max(1, ⌊n × percent⌋)` clamped to `n`, the percent (25/50/75%)
chosen from the remaining reduction relative to the channel's recorded
size. -/
def trimRemovalCount (target freed usage len : Nat) : Nat :=
  let remaining : ℚ := ((target - freed : Nat) : ℚ)
  let channelSize : ℚ := (usage : ℚ)
  let removalPercent : ℚ :=
    if channelSize * (1 / 2) < remaining then 3 / 4
    else if channelSize * (1 / 4) < remaining then 1 / 2
    else 1 / 4
  min (max 1 ((((len : ℚ) * removalPercent).floor).toNat)) len

/-- The per-channel loop of `TrimMemoryBudget`: walk the usage-sorted
channels; stop once the freed total reaches the target; from each
non-empty channel remove `trimRemovalCount` oldest entries and add the
observed per-channel usage drop to the freed total. -/
def trimLoop (target : Nat) (s : Subsystem) (freed : Nat) :
    List (Str × Nat) → Subsystem × Nat
  | [] => (s, freed)
  | (c, usage) :: rest =>
    if target ≤ freed then (s, freed)
    else
      match alFind? c s.logEntries with
      | none => trimLoop target s freed rest
      | some entries =>
        if entries.length = 0 then trimLoop target s freed rest
        else
          let entriesToRemove := trimRemovalCount target freed usage entries.length
          let before := s.memoryTracker.channelUsage c
          let s1 := trimChannelForMemory s c (entriesToRemove : ℤ)
          let after := s1.memoryTracker.channelUsage c
          trimLoop target s1 (freed + (before - after)) rest

/-- `UULMSubsystem::TrimMemoryBudget`: skip when usage is at least the 2%
safety buffer below budget; otherwise run one trimming pass over the
usage-sorted channels and count a trimming event. -/
def trimMemoryBudget (s : Subsystem) : Subsystem :=
  let U := s.memoryTracker.getTotal
  let B := s.memoryTracker.memoryBudget
  let buffer := B * 2 / 100
  if U ≤ B - buffer then s
  else
    let target := trimTargetReduction U B
    let r := trimLoop target s 0 (channelsByUsage s)
    { r.1 with
        memoryTracker.trimmingEvents := r.1.memoryTracker.trimmingEvents + 1 }

/-- The storage commit inside `UULMSubsystem::StoreProcessedLogEntry`,
after the master-list and budget gates: auto-create the channel storage
(and registry entry) when missing, append the entry, track its bytes,
queue the file write when enabled, then enforce the channel's max-entry
cap by trimming the excess from the front. -/
def storeProcessedLogEntryCore (s : Subsystem) (e : LogEntry) (entrySize : Nat) :
    Subsystem :=
  let s1 :=
    if (alFind? e.channel s.logEntries).isSome then s
    else
      { s with
          logEntries := s.logEntries ++ [(e.channel, [])]
          registry :=
            if (alFind? e.channel s.registry.channelStates).isSome then s.registry
            else registryRegisterChannel s.registry e.channel defaultChannelConfig }
  let s2 := { s1 with logEntries := alModify e.channel (fun es => es ++ [e]) s1.logEntries }
  let s3 := { s2 with memoryTracker := s2.memoryTracker.add e.channel entrySize }
  let s4 :=
    if s3.fileLoggingEnabled ∧ e.channel ≠ "ULM".toList then
      { s3 with fileWriteQueue := s3.fileWriteQueue ++ [e] }
    else s3
  let cfg := getChannelConfigReg s4.registry e.channel
  let cur := entriesOf s4 e.channel
  if cfg.maxLogEntries < (cur.length : ℤ) then
    trimChannelForMemory s4 e.channel ((cur.length : ℤ) - cfg.maxLogEntries)
  else s4

/-- `UULMSubsystem::StoreProcessedLogEntry`: drop non-master-list
channels; when the entry would exceed the budget, run one eviction pass
and drop the entry if it still does not fit; otherwise commit it. -/
def storeProcessedLogEntry (s : Subsystem) (e : LogEntry) : Subsystem :=
  if isChannelInMasterList e.channel = false then s
  else
    let entrySize := calculateLogEntrySize e
    if s.memoryTracker.wouldExceedBudget entrySize then
      let s1 := trimMemoryBudget s
      if s1.memoryTracker.wouldExceedBudget entrySize then s1
      else storeProcessedLogEntryCore s1 e entrySize
    else storeProcessedLogEntryCore s e entrySize

/-- `StoreProcessedLogEntry` folded over a list of processed entries, in
order. -/
def storeMany (s : Subsystem) (L : List LogEntry) : Subsystem :=
  L.foldl storeProcessedLogEntry s

/-- Bookkeeping consistency of a subsystem state: unique map keys, the
per-channel byte map agreeing with the stored entries, tracked channels
all having storage, and the total counter equal to the stored grand
total. Every reachable state of the storage path is consistent. -/
def Consistent (s : Subsystem) : Prop :=
  (alKeys s.logEntries).Nodup ∧
  (alKeys s.memoryTracker.channelMemoryUsage).Nodup ∧
  (∀ p ∈ s.logEntries, s.memoryTracker.channelUsage p.1 = entrySizeSum p.2) ∧
  (∀ p ∈ s.memoryTracker.channelMemoryUsage, p.1 ∈ alKeys s.logEntries) ∧
  s.memoryTracker.totalMemoryUsed = ((s.logEntries.map (fun p => entrySizeSum p.2)).sum : ℤ)

instance (s : Subsystem) : Decidable (Consistent s) := by
  unfold Consistent; infer_instance

/-- `UULMSubsystem::RegisterChannel`: only master-list names are
registered; everything else returns with the registry and storage
untouched. -/
def subsystemRegisterChannel (s : Subsystem) (name : Str) (cfg : ChannelConfig) :
    Subsystem :=
  if isChannelInMasterList name = false then s
  else
    { s with
        registry := registryRegisterChannel s.registry name cfg
        logEntries :=
          if (alFind? name s.logEntries).isSome then s.logEntries
          else s.logEntries ++ [(name, [])] }

/-! ## Log rotation (`ULMLogRotation.cpp`) -/

/-- A calendar date (`FDateTime`, to day precision — the rotation code
only ever formats dates as `YYYYMMDD`). -/
structure Date where
  year : Nat
  month : Nat
  day : Nat
deriving DecidableEq, Repr

/-- `FDateTime::ToString(TEXT("%Y%m%d"))`. -/
def dateString (d : Date) : Str :=
  padNum 4 d.year ++ padNum 2 d.month ++ padNum 2 d.day

/-- `%0Nd` rendering of a signed integer. -/
def padIntStr (w : Nat) (i : ℤ) : Str :=
  if i < 0 then '-' :: leftPad (w - 1) '0' (decimalStr (-i).toNat)
  else leftPad w '0' (decimalStr i.toNat)

/-- `FULMLogFileInfo`. -/
structure LogFileInfo where
  filePath : Str
  channelName : Str
  creationDate : Date
  fileSize : ℤ
  fileIndex : ℤ
  isActive : Bool
deriving DecidableEq, Repr

/-- The `FULMLogFileInfo` constructor: size 0, inactive. -/
def newLogFileInfo (path c : Str) (date : Date) (idx : ℤ) : LogFileInfo :=
  { filePath := path, channelName := c, creationDate := date
    fileSize := 0, fileIndex := idx, isActive := false }

/-- `FULMLogFileTracker`'s channel→files map. -/
abbrev Tracker := List (Str × List LogFileInfo)

/-- The tracked files of a channel (empty when unknown). -/
def filesOf (t : Tracker) (c : Str) : List LogFileInfo :=
  (alFind? c t).getD []

/-- The per-channel body of `RegisterFile`: update the first file with the
same path in place (date and index only), otherwise append a new,
inactive file record. -/
def registerFileList (c path : Str) (date : Date) (idx : ℤ) :
    List LogFileInfo → List LogFileInfo
  | [] => [newLogFileInfo path c date idx]
  | f :: fs =>
    if f.filePath = path then { f with creationDate := date, fileIndex := idx } :: fs
    else f :: registerFileList c path date idx fs

/-- `FULMLogFileTracker::RegisterFile`. -/
def registerFile (t : Tracker) (c path : Str) (date : Date) (idx : ℤ) : Tracker :=
  alEmplace c (registerFileList c path date idx (filesOf t c)) t

/-- First loop of `SetFileActive`: deactivate every file of the channel. -/
def deactivateAll (fs : List LogFileInfo) : List LogFileInfo :=
  fs.map (fun f => { f with isActive := false })

/-- Second loop of `SetFileActive`: activate the first file whose path
matches. -/
def activateFirst (path : Str) : List LogFileInfo → List LogFileInfo
  | [] => []
  | f :: fs =>
    if f.filePath = path then { f with isActive := true } :: fs
    else f :: activateFirst path fs

/-- `FULMLogFileTracker::SetFileActive` (no effect on unknown channels). -/
def setFileActive (t : Tracker) (c path : Str) : Tracker :=
  match alFind? c t with
  | none => t
  | some fs => alEmplace c (activateFirst path (deactivateAll fs)) t

/-- `FULMLogFileTracker::RemoveFile`: drop the path from every channel. -/
def removeFileTracker (t : Tracker) (path : Str) : Tracker :=
  t.map (fun p => (p.1, p.2.filter (fun f => !(f.filePath = path))))

/-- The per-channel body of `UpdateFileSize`: set the size of the first
active file. -/
def updateFileSizeList (n : ℤ) : List LogFileInfo → List LogFileInfo
  | [] => []
  | f :: fs =>
    if f.isActive then { f with fileSize := n } :: fs
    else f :: updateFileSizeList n fs

/-- `FULMLogFileTracker::UpdateFileSize`. -/
def updateFileSizeTracker (t : Tracker) (c : Str) (n : ℤ) : Tracker :=
  match alFind? c t with
  | none => t
  | some fs => alEmplace c (updateFileSizeList n fs) t

/-- `FULMLogFileTracker::GetActiveFile`: the first file marked active. -/
def getActiveFile (t : Tracker) (c : Str) : Option LogFileInfo :=
  (filesOf t c).find? (fun f => f.isActive)

/-- `FULMLogFileTracker::ShouldRotateFile`: some active file of the
channel has reached the size limit. -/
def shouldRotateTracker (t : Tracker) (c : Str) (maxSize : ℤ) : Bool :=
  (filesOf t c).any (fun f => f.isActive && decide (maxSize ≤ f.fileSize))

/-- The generated rotated file name `ULM_<channel>_<YYYYMMDD>_<NNN>.json`. -/
def genFileName (c : Str) (ds : Str) (idx : ℤ) : Str :=
  "ULM_".toList ++ c ++ '_' :: (ds ++ '_' :: (padIntStr 3 idx ++ ".json".toList))

/-- `FULMLogFileTracker::GenerateRotatedFilePath`: one more than the
highest index already registered for this channel today (at least 1),
rendered into the naming convention under the base path. -/
def generateRotatedFilePath (t : Tracker) (c : Str) (base : Str) (now : Date) : Str :=
  let ds := dateString now
  let nextIndex :=
    (filesOf t c).foldl
      (fun ni f =>
        if dateString f.creationDate = ds ∧ ni ≤ f.fileIndex then f.fileIndex + 1 else ni)
      1
  base ++ '/' :: genFileName c ds nextIndex

/-- `FULMLogFileTracker::ParseLogFileName`: split on underscores (culling
empties), demand at least four parts with leading `ULM` and an 8-character
date, and read channel, date and index back. -/
def parseLogFileName (name : Str) : Option (Str × Date × ℤ) :=
  let parts := parseIntoArray '_' name
  if parts.length < 4 then none
  else if ¬ parts.getD 0 [] = "ULM".toList then none
  else
    let ds := parts.getD 2 []
    if ¬ ds.length = 8 then none
    else
      let y := atoi (ds.take 4)
      let m := atoi ((ds.drop 4).take 2)
      let d := atoi (ds.drop 6)
      let idx := atoi (getBaseFilename (parts.getD 3 []))
      some (parts.getD 1 [], ⟨y, m, d⟩, (idx : ℤ))

/-- `FULMRotationConfig`. -/
structure RotationConfig where
  maxFileSizeBytes : ℤ
  retentionDays : ℤ
  maxFilesPerDay : ℤ
  autoCleanupOnStartup : Bool
  periodicCleanup : Bool
  cleanupIntervalHours : ℚ
deriving DecidableEq, Repr

/-- Default-constructed `FULMRotationConfig` (100 MB, 7 days). -/
def defaultRotationConfig : RotationConfig :=
  { maxFileSizeBytes := 104857600, retentionDays := 7, maxFilesPerDay := 10
    autoCleanupOnStartup := true, periodicCleanup := true, cleanupIntervalHours := 24 }

/-- `FULMLogRotator` (diagnostics beyond the rotation count omitted). -/
structure Rotator where
  config : RotationConfig
  fileTracker : Tracker
  totalRotations : ℤ
deriving DecidableEq, Repr

/-- `FULMLogRotator::RotateFile`: with a valid config, deactivate the
channel's files, generate the next rotated path for today, parse its name
back, register and activate the new file, and return the new path. -/
def rotateFile (r : Rotator) (now : Date) (c : Str) (currentPath : Str) : Str × Rotator :=
  if ¬ (0 < r.config.maxFileSizeBytes ∧ 0 < r.config.retentionDays) then (currentPath, r)
  else
    let base := getPath currentPath
    let newFilePath := generateRotatedFilePath r.fileTracker c base now
    let t1 := setFileActive r.fileTracker c []
    match parseLogFileName (getCleanFilename newFilePath) with
    | some pr =>
      let t2 := registerFile t1 c newFilePath now pr.2.2
      let t3 := setFileActive t2 c newFilePath
      (newFilePath, { r with fileTracker := t3, totalRotations := r.totalRotations + 1 })
    | none =>
      (newFilePath, { r with fileTracker := t1, totalRotations := r.totalRotations + 1 })

/-- `FULMLogRotator::GetActiveFilePath`: the active file's path, or the
default index-001 name for today when the channel has no active file. -/
def getActiveFilePath (r : Rotator) (c : Str) (base : Str) (now : Date) : Str :=
  match getActiveFile r.fileTracker c with
  | some f => f.filePath
  | none => base ++ '/' :: genFileName c (dateString now) 1

/-! ## Reachable tracker states (for the active-file invariant) -/

/-- The public operations through which a `FULMLogFileTracker` evolves. -/
inductive TrackerOp where
  | register (c path : Str) (date : Date) (idx : ℤ)
  | setActive (c path : Str)
  | remove (path : Str)
  | updateSize (c : Str) (n : ℤ)
  | rotate (now : Date) (c : Str) (currentPath : Str)

/-- Apply one tracker operation; `rotate` acts through
`FULMLogRotator::RotateFile` with the default (valid) rotation config. -/
def applyTrackerOp (t : Tracker) : TrackerOp → Tracker
  | .register c path date idx => registerFile t c path date idx
  | .setActive c path => setFileActive t c path
  | .remove path => removeFileTracker t path
  | .updateSize c n => updateFileSizeTracker t c n
  | .rotate now c p =>
    (rotateFile { config := defaultRotationConfig, fileTracker := t, totalRotations := 0 }
      now c p).2.fileTracker

/-- A tracker reached from empty by a sequence of public operations. -/
def applyTrackerOps (ops : List TrackerOp) : Tracker :=
  ops.foldl applyTrackerOp []

/-- The number of files of a channel currently marked active. -/
def countActive (t : Tracker) (c : Str) : Nat :=
  (filesOf t c).countP (fun f => f.isActive)

/-! ## Sample states used as concrete scenarios -/

/-- A registry holding just the `Gameplay` channel with default config. -/
def sampleRegistry : ChannelRegistry :=
  { channelConfigs := [("Gameplay".toList, defaultChannelConfig)]
    channelStates := [("Gameplay".toList, defaultChannelState)]
    defaultConfig := defaultChannelConfig }

/-- A quiescent subsystem with the `Gameplay` channel registered and the
default 50 MB budget. -/
def sampleSubsystem : Subsystem :=
  { registry := sampleRegistry
    logEntries := [("Gameplay".toList, [])]
    memoryTracker :=
      { totalMemoryUsed := 0, totalEntries := 0, trimmingEvents := 0
        channelMemoryUsage := [], memoryBudget := 52428800 }
    messageQueue := []
    queueDiagnostics := ⟨0, 0, 0, 0⟩
    fileWriteQueue := []
    fileLoggingEnabled := false }

/-- The sample subsystem with its ingestion counters at capacity. -/
def sampleSubsystemAtCapacity : Subsystem :=
  { sampleSubsystem with queueDiagnostics := ⟨10000, 0, 0, 0⟩ }

/-- A minimal log entry on the `Gameplay` channel (tracked size 96). -/
def sampleTrimEntry : LogEntry :=
  { message := [], channel := "Gameplay".toList, verbosity := .Message
    timestamp := 0, threadId := 0 }

/-- A consistent store at 124.8% of a 10000-byte budget: 130 entries of
96 bytes on the `Gameplay` channel. -/
def overBudgetStore : Subsystem :=
  { registry := sampleRegistry
    logEntries := [("Gameplay".toList, List.replicate 130 sampleTrimEntry)]
    memoryTracker :=
      { totalMemoryUsed := 12480, totalEntries := 130, trimmingEvents := 0
        channelMemoryUsage := [("Gameplay".toList, 12480)], memoryBudget := 10000 }
    messageQueue := []
    queueDiagnostics := ⟨0, 0, 0, 0⟩
    fileWriteQueue := []
    fileLoggingEnabled := false }

/-- The default config with the retained-entry cap lowered to 2. -/
def c4Config : ChannelConfig :=
  { defaultChannelConfig with maxLogEntries := 2 }

/-- A registry whose `Gameplay` channel keeps at most 2 entries. -/
def c4Registry : ChannelRegistry :=
  { channelConfigs := [("Gameplay".toList, c4Config)]
    channelStates := [("Gameplay".toList, defaultChannelState)]
    defaultConfig := defaultChannelConfig }

/-- An empty store whose `Gameplay` channel keeps at most 2 entries. -/
def c4Store : Subsystem :=
  { registry := c4Registry
    logEntries := [("Gameplay".toList, [])]
    memoryTracker :=
      { totalMemoryUsed := 0, totalEntries := 0, trimmingEvents := 0
        channelMemoryUsage := [], memoryBudget := 10000 }
    messageQueue := []
    queueDiagnostics := ⟨0, 0, 0, 0⟩
    fileWriteQueue := []
    fileLoggingEnabled := false }

/-- Three processed `Gameplay` entries, distinguished by timestamp. -/
def c4Entries : List LogEntry :=
  [{ message := [], channel := "Gameplay".toList, verbosity := .Message
     timestamp := 1, threadId := 0 },
   { message := [], channel := "Gameplay".toList, verbosity := .Message
     timestamp := 2, threadId := 0 },
   { message := [], channel := "Gameplay".toList, verbosity := .Message
     timestamp := 3, threadId := 0 }]

/-- A full-size active `Gameplay` log file registered for 2024-01-01,
index 1. -/
def w8File : LogFileInfo :=
  { filePath := "/logs/ULM_Gameplay_20240101_001.json".toList
    channelName := "Gameplay".toList
    creationDate := ⟨2024, 1, 1⟩
    fileSize := 104857600
    fileIndex := 1
    isActive := true }

/-- A rotator with the default config tracking exactly `w8File`. -/
def w8Rotator : Rotator :=
  { config := defaultRotationConfig
    fileTracker := [("Gameplay".toList, [w8File])]
    totalRotations := 0 }

/-! # Theorems -/

/-! ## Token bucket lemmas (claim C1) -/

theorem canLogRun_append (v : Verbosity) (s : ChannelState) (l1 l2 : List ℚ) :
    canLogRun v s (l1 ++ l2) =
      ((canLogRun v s l1).1 ++ (canLogRun v (canLogRun v s l1).2 l2).1,
        (canLogRun v (canLogRun v s l1).2 l2).2) := by
  induction l1 generalizing s with
  | nil => simp [canLogRun]
  | cons t ts ih => simp [canLogRun, ih]

theorem canLogState_first_use (minV v : Verbosity) (R : ℚ) (C : ℤ) (tok t : ℚ)
    (hv : verbLt v minV = false) (hC : 1 ≤ (C : ℚ)) :
    canLogState v t (tokenState minV R C tok 0) =
      (true, tokenState minV R C ((C : ℚ) - 1) t) := by
  simp [canLogState, refillTokens, tokenState, defaultChannelState, hv, hC]

theorem canLogState_same_instant_ok (minV v : Verbosity) (R : ℚ) (C : ℤ) (tok t : ℚ)
    (hv : verbLt v minV = false) (ht : ¬ t = 0) (htok : 1 ≤ tok) :
    canLogState v t (tokenState minV R C tok t) =
      (true, tokenState minV R C (tok - 1) t) := by
  simp [canLogState, refillTokens, tokenState, defaultChannelState, hv, ht, htok]

theorem canLogState_same_instant_deny (minV v : Verbosity) (R : ℚ) (C : ℤ) (tok t : ℚ)
    (hv : verbLt v minV = false) (ht : ¬ t = 0) (htok : ¬ 1 ≤ tok) :
    canLogState v t (tokenState minV R C tok t) =
      (false, tokenState minV R C tok t) := by
  simp [canLogState, refillTokens, tokenState, defaultChannelState, hv, ht, htok]

theorem canLogState_refill_one (minV v : Verbosity) (R : ℚ) (C : ℤ) (t : ℚ)
    (hv : verbLt v minV = false) (ht : ¬ t = 0) (hR : 0 < R) (hC : 1 ≤ (C : ℚ)) :
    canLogState v (t + 1 / R) (tokenState minV R C 0 t) =
      (true, tokenState minV R C 0 (t + 1 / R)) := by
  have hR0 : R ≠ 0 := ne_of_gt hR
  have hd : (0 : ℚ) < R⁻¹ := by positivity
  simp [canLogState, refillTokens, tokenState, defaultChannelState, hv, ht, hd,
    inv_mul_cancel₀ hR0, min_eq_left hC]

theorem canLogRun_same_instant (minV v : Verbosity) (R : ℚ) (C : ℤ) (t : ℚ)
    (hv : verbLt v minV = false) (ht : ¬ t = 0) :
    ∀ (n m : ℕ), n ≤ m →
      canLogRun v (tokenState minV R C (m : ℚ) t) (List.replicate n t) =
        (List.replicate n true, tokenState minV R C ((m - n : ℕ) : ℚ) t) := by
  intro n
  induction n with
  | zero => intro m _; simp [canLogRun]
  | succ k ih =>
    intro m hm
    have hm1 : 1 ≤ (m : ℚ) := by
      have : 1 ≤ m := by omega
      exact_mod_cast this
    rw [List.replicate_succ]
    simp only [canLogRun]
    rw [canLogState_same_instant_ok minV v R C (m : ℚ) t hv ht hm1]
    have hcast : (m : ℚ) - 1 = ((m - 1 : ℕ) : ℚ) := by
      have h1 : 1 ≤ m := by omega
      push_cast [h1]
      ring
    rw [hcast, ih (m - 1) (by omega)]
    have harith : m - 1 - k = m - (k + 1) := by omega
    rw [harith, List.replicate_succ]

theorem canLogRun_from_first_use (minV v : Verbosity) (R : ℚ) (CN : ℕ) (tok0 t : ℚ)
    (hv : verbLt v minV = false) (ht : ¬ t = 0) (n : ℕ) (h1 : 1 ≤ n) (h2 : n ≤ CN) :
    canLogRun v (tokenState minV R (CN : ℤ) tok0 0) (List.replicate n t) =
      (List.replicate n true, tokenState minV R (CN : ℤ) ((CN - n : ℕ) : ℚ) t) := by
  obtain ⟨m, rfl⟩ : ∃ m, n = m + 1 := ⟨n - 1, by omega⟩
  have hCQ : 1 ≤ (((CN : ℕ) : ℤ) : ℚ) := by
    have : (1 : ℕ) ≤ CN := by omega
    exact_mod_cast this
  rw [List.replicate_succ]
  simp only [canLogRun]
  rw [canLogState_first_use minV v R (CN : ℤ) tok0 t hv hCQ]
  simp only
  have hk : (((CN : ℤ)) : ℚ) - 1 = ((CN - 1 : ℕ) : ℚ) := by
    have h1' : (1 : ℕ) ≤ CN := by omega
    push_cast [h1']
    ring
  rw [hk]
  rw [canLogRun_same_instant minV v R (CN : ℤ) t hv ht m (CN - 1) (by omega)]
  have harith : CN - 1 - m = CN - (m + 1) := by omega
  rw [harith, List.replicate_succ]

/-- C1: for a channel with rate `R > 0` and burst capacity `C ≥ 1`, from
first use (which fills the bucket to capacity, whatever the prior token
counter held): `C` consecutive `CanLog` calls at one instant all succeed,
the `(C+1)`-th at that instant is denied, and after exactly `1/R` seconds
exactly one further call succeeds while the next call at that same
instant is denied again. -/
theorem claim_C1_token_bucket (R : ℚ) (C : ℕ) (minV v : Verbosity) (t0 tok0 : ℚ)
    (hR : 0 < R) (hC : 1 ≤ C) (ht : 0 < t0) (hv : verbLt v minV = false) :
    (canLogRun v (tokenState minV R (C : ℤ) tok0 0)
        (List.replicate (C + 1) t0 ++ [t0 + 1 / R, t0 + 1 / R])).1 =
      List.replicate C true ++ [false, true, false] := by
  have ht0 : ¬ t0 = 0 := ne_of_gt ht
  have ht1 : ¬ t0 + 1 / R = 0 := by
    have : (0 : ℚ) < t0 + 1 / R := by positivity
    exact ne_of_gt this
  have hCQ : 1 ≤ ((C : ℤ) : ℚ) := by exact_mod_cast hC
  rw [List.replicate_succ']
  rw [canLogRun_append, canLogRun_append]
  rw [canLogRun_from_first_use minV v R C tok0 t0 hv ht0 C hC le_rfl]
  simp only [Nat.sub_self, Nat.cast_zero, canLogRun]
  rw [canLogState_same_instant_deny minV v R (C : ℤ) 0 t0 hv ht0 (by norm_num)]
  simp only
  rw [canLogState_refill_one minV v R (C : ℤ) t0 hv ht0 hR hCQ]
  simp only
  rw [canLogState_same_instant_deny minV v R (C : ℤ) 0 (t0 + 1 / R) hv ht1 (by norm_num)]
  simp

/-- Witness for C1 at `R = 2`, `C = 3`, `t0 = 1`. -/
theorem claim_C1_token_bucket_witness :
    (canLogRun .Message (tokenState .Message 2 (3 : ℤ) 20 0)
        (List.replicate 4 1 ++ [1 + 1 / 2, 1 + 1 / 2])).1 =
      List.replicate 3 true ++ [false, true, false] :=
  claim_C1_token_bucket 2 3 .Message .Message 1 20 (by norm_num) (by norm_num)
    (by norm_num) (by decide)

/-! ## Processor final drain (claim C2) -/

theorem processBatchAux_take_drop (n : Nat) (q : List QueueEntry) :
    processBatchAux n q = (q.take n, q.drop n) := by
  induction n generalizing q with
  | zero => simp [processBatchAux]
  | succ m ih =>
    cases q with
    | nil => simp [processBatchAux]
    | cons e rest => simp [processBatchAux, ih]

/-- C2 fails on the code: the final drain after the stop flag is one
`ProcessBatch`, capped at `BATCH_SIZE = 64`, so a queue holding 65
entries when the stop flag is observed terminates with one entry still
unprocessed. -/
theorem claim_C2_counterexample :
    (processorFinalDrain
        (List.replicate 65 ⟨[], "Gameplay".toList, .Message⟩)).2 ≠ [] := by
  rw [processorFinalDrain, processBatch, processBatchAux_take_drop]
  simp [BATCH_SIZE]

/-- C2 (amended): on shutdown the processor performs one final batch of
at most `BATCH_SIZE = 64` entries — the first 64 queued entries are
dequeued and processed in order and the rest remain; the final drain
empties the queue exactly when at most 64 entries are pending when the
stop flag is observed. -/
theorem claim_C2_final_drain (q : List QueueEntry) :
    processorFinalDrain q = (q.take BATCH_SIZE, q.drop BATCH_SIZE) ∧
      (q.length ≤ BATCH_SIZE → (processorFinalDrain q).2 = []) := by
  refine ⟨processBatchAux_take_drop _ _, fun h => ?_⟩
  rw [processorFinalDrain, processBatch, processBatchAux_take_drop]
  simpa using h

/-- Witness for the amended C2 on a 3-entry queue. -/
theorem claim_C2_final_drain_witness :
    (processorFinalDrain (List.replicate 3 ⟨[], "AI".toList, .Message⟩)).2 = [] :=
  (claim_C2_final_drain (List.replicate 3 ⟨[], "AI".toList, .Message⟩)).2 (by decide)

/-! ## Inheritance resolution (claim C5) -/

/-- C5: with the inherit flag and a parent, the effective snapshot is
`enabled = parent.effective_enabled AND own`, `min severity = max of
parent's effective and own`, `rate limit = own if its tokens/sec is
positive else parent's effective`, and `max entries = own, never
inherited`; without the flag or without a parent every effective field is
the channel's own configured value. -/
theorem claim_C5_effective_settings (cfg : ChannelConfig) (p s : ChannelState)
    (pOpt : Option ChannelState) :
    (cfg.inheritFromParent = true →
      (updateEffectiveSettings cfg (some p) s).effectiveEnabled =
          (p.effectiveEnabled && cfg.enabled) ∧
        (updateEffectiveSettings cfg (some p) s).effectiveMinVerbosity =
          verbMax p.effectiveMinVerbosity cfg.minVerbosity ∧
        (updateEffectiveSettings cfg (some p) s).effectiveRateLimit =
          (if 0 < cfg.rateLimit.tokensPerSecond then cfg.rateLimit
           else p.effectiveRateLimit) ∧
        (updateEffectiveSettings cfg (some p) s).effectiveMaxEntries =
          cfg.maxLogEntries) ∧
    (cfg.inheritFromParent = false ∨ pOpt = none →
      (updateEffectiveSettings cfg pOpt s).effectiveEnabled = cfg.enabled ∧
        (updateEffectiveSettings cfg pOpt s).effectiveMinVerbosity = cfg.minVerbosity ∧
        (updateEffectiveSettings cfg pOpt s).effectiveColor = cfg.displayColor ∧
        (updateEffectiveSettings cfg pOpt s).effectiveRateLimit = cfg.rateLimit ∧
        (updateEffectiveSettings cfg pOpt s).effectiveMaxEntries = cfg.maxLogEntries) := by
  constructor
  · intro h
    simp [updateEffectiveSettings, h]
  · intro h
    rcases h with h | h
    · cases pOpt <;> simp [updateEffectiveSettings, h]
    · subst h
      simp [updateEffectiveSettings]

/-- Witness for C5 with a disabled parent and an own rate limit. -/
theorem claim_C5_effective_settings_witness :
    (updateEffectiveSettings defaultChannelConfig
        (some { defaultChannelState with effectiveEnabled := false })
        defaultChannelState).effectiveEnabled =
      ({ defaultChannelState with effectiveEnabled := false }.effectiveEnabled &&
        defaultChannelConfig.enabled) :=
  ((claim_C5_effective_settings defaultChannelConfig
      { defaultChannelState with effectiveEnabled := false }
      defaultChannelState none).1 (by decide)).1

/-! ## Master-list gate on registration (claim C10) -/

theorem master_list_iff (n : Str) :
    isChannelInMasterList n = true ↔ n ∈ masterChannelNames := by
  simp [isChannelInMasterList, masterChannelNames, or_assoc]

/-- C10: `UULMSubsystem::RegisterChannel` accepts exactly the twelve
master-list names; any other name — dotted paths included — returns with
the registry and the per-channel storage untouched. -/
theorem claim_C10_register_gate :
    (∀ n : Str, isChannelInMasterList n = true ↔ n ∈ masterChannelNames) ∧
    (∀ (s : Subsystem) (n : Str) (cfg : ChannelConfig),
      isChannelInMasterList n = false → subsystemRegisterChannel s n cfg = s) := by
  refine ⟨master_list_iff, fun s n cfg h => ?_⟩
  simp [subsystemRegisterChannel, h]

/-- Witness for C10: registering the dotted path `A.B` is a no-op. -/
theorem claim_C10_register_gate_witness :
    subsystemRegisterChannel sampleSubsystem "A.B".toList defaultChannelConfig =
      sampleSubsystem :=
  claim_C10_register_gate.2 sampleSubsystem "A.B".toList defaultChannelConfig (by decide)

/-! ## Non-blocking bounded ingestion (claim C6) -/

/-- C6: when the channel admits the message, the enqueue path never
blocks — at an estimated pending count (enqueue minus dequeue counters)
at or above `MAX_QUEUE_SIZE = 10000` the entry is not enqueued and only
the drop counter is bumped; below capacity the entry is appended and only
the enqueue counter is bumped. -/
theorem claim_C6_nonblocking_enqueue (s : Subsystem) (msg c : Str) (v : Verbosity)
    (t : ℚ) (hadm : (canChannelLog s.registry c v t).1 = true) :
    (MAX_QUEUE_SIZE ≤ getQueueSize s →
      (storeLogEntryInternal s msg c v t).messageQueue = s.messageQueue ∧
        (storeLogEntryInternal s msg c v t).queueDiagnostics.droppedCount =
          s.queueDiagnostics.droppedCount + 1 ∧
        (storeLogEntryInternal s msg c v t).queueDiagnostics.enqueueCount =
          s.queueDiagnostics.enqueueCount) ∧
    (getQueueSize s < MAX_QUEUE_SIZE →
      (storeLogEntryInternal s msg c v t).messageQueue =
          s.messageQueue ++ [⟨msg, c, v⟩] ∧
        (storeLogEntryInternal s msg c v t).queueDiagnostics.enqueueCount =
          s.queueDiagnostics.enqueueCount + 1 ∧
        (storeLogEntryInternal s msg c v t).queueDiagnostics.droppedCount =
          s.queueDiagnostics.droppedCount) := by
  constructor
  · intro hq
    have hq2 : MAX_QUEUE_SIZE ≤
        getQueueSize { s with registry := (canChannelLog s.registry c v t).2 } := hq
    simp [storeLogEntryInternal, hadm, hq2]
  · intro hq
    have hq2 : ¬ MAX_QUEUE_SIZE ≤
        getQueueSize { s with registry := (canChannelLog s.registry c v t).2 } :=
      not_le.mpr hq
    simp [storeLogEntryInternal, hadm, hq2]

/-- Witness for C6: at capacity (counters 10000/0) the entry is dropped. -/
theorem claim_C6_nonblocking_enqueue_witness :
    (storeLogEntryInternal sampleSubsystemAtCapacity [] "Gameplay".toList .Message
        1).messageQueue = sampleSubsystemAtCapacity.messageQueue :=
  ((claim_C6_nonblocking_enqueue sampleSubsystemAtCapacity [] "Gameplay".toList .Message 1
      (by decide)).1 (by decide)).1

/-! ## Association-list lemmas -/

theorem alFind?_emplace_self {β : Type} (k : Str) (v : β) (l : List (Str × β)) :
    alFind? k (alEmplace k v l) = some v := by
  induction l with
  | nil => simp [alEmplace, alFind?]
  | cons p ps ih => by_cases h : p.1 = k <;> simp [alEmplace, alFind?, h, ih]

theorem alFind?_emplace_ne {β : Type} (k k' : Str) (v : β) (l : List (Str × β))
    (h : ¬ k' = k) : alFind? k' (alEmplace k v l) = alFind? k' l := by
  have h' : ¬ k = k' := fun hh => h hh.symm
  induction l with
  | nil => simp [alEmplace, alFind?, h']
  | cons p ps ih =>
    by_cases hp : p.1 = k
    · subst hp
      simp [alEmplace, alFind?, h']
    · simp [alEmplace, alFind?, hp, ih]

theorem alFind?_modify_self {β : Type} (k : Str) (f : β → β) (l : List (Str × β)) :
    alFind? k (alModify k f l) = (alFind? k l).map f := by
  induction l with
  | nil => simp [alModify, alFind?]
  | cons p ps ih => by_cases h : p.1 = k <;> simp [alModify, alFind?, h, ih]

theorem alFind?_modify_ne {β : Type} (k k' : Str) (f : β → β) (l : List (Str × β))
    (h : ¬ k' = k) : alFind? k' (alModify k f l) = alFind? k' l := by
  have h' : ¬ k = k' := fun hh => h hh.symm
  induction l with
  | nil => simp [alModify, alFind?]
  | cons p ps ih =>
    by_cases hp : p.1 = k
    · subst hp
      simp [alModify, alFind?, h']
    · simp [alModify, alFind?, hp, ih]

theorem alFind?_erase_self {β : Type} (k : Str) (l : List (Str × β)) :
    alFind? k (alErase k l) = none := by
  induction l with
  | nil => simp [alErase, alFind?]
  | cons p ps ih =>
    by_cases h : p.1 = k
    · simpa [alErase, List.filter_cons, h] using ih
    · simpa [alErase, List.filter_cons, alFind?, h] using ih

theorem alFind?_erase_ne {β : Type} (k k' : Str) (l : List (Str × β))
    (h : ¬ k' = k) : alFind? k' (alErase k l) = alFind? k' l := by
  induction l with
  | nil => simp [alErase, alFind?]
  | cons p ps ih =>
    by_cases hp : p.1 = k
    · have hpk : ¬ p.1 = k' := by rw [hp]; exact fun hh => h hh.symm
      rw [alFind?, if_neg hpk]
      rw [show alErase k (p :: ps) = alErase k ps by simp [alErase, List.filter_cons, hp]]
      exact ih
    · rw [show alErase k (p :: ps) = p :: alErase k ps by
        simp [alErase, List.filter_cons, hp]]
      rw [alFind?, alFind?]
      by_cases hk : p.1 = k' <;> simp [hk, ih]

theorem alFind?_map_value {β γ : Type} (g : Str → β → γ) (k : Str)
    (l : List (Str × β)) :
    alFind? k (l.map (fun p => (p.1, g p.1 p.2))) = (alFind? k l).map (g k) := by
  induction l with
  | nil => simp [alFind?]
  | cons p ps ih =>
    by_cases h : p.1 = k
    · subst h; simp [alFind?]
    · simp [alFind?, h, ih]

/-! ## Active-file counting lemmas (claim C9) -/

theorem countP_registerFileList (c path : Str) (date : Date) (idx : ℤ)
    (fs : List LogFileInfo) :
    (registerFileList c path date idx fs).countP (fun f => f.isActive) =
      fs.countP (fun f => f.isActive) := by
  induction fs with
  | nil => simp [registerFileList, newLogFileInfo]
  | cons f fs ih =>
    by_cases h : f.filePath = path <;>
      simp [registerFileList, h, ih, List.countP_cons]

theorem countP_deactivateAll (fs : List LogFileInfo) :
    (deactivateAll fs).countP (fun f => f.isActive) = 0 := by
  induction fs <;> simp [deactivateAll, List.countP_cons, *]

theorem countP_activateFirst (path : Str) (fs : List LogFileInfo)
    (h : fs.countP (fun f => f.isActive) = 0) :
    (activateFirst path fs).countP (fun f => f.isActive) ≤ 1 := by
  induction fs with
  | nil => simp [activateFirst]
  | cons f fs ih =>
    cases hfa : f.isActive with
    | true =>
      rw [List.countP_cons] at h
      simp [hfa] at h
    | false =>
      have h1 : fs.countP (fun f => f.isActive) = 0 := by
        rw [List.countP_cons] at h
        simpa [hfa] using h
      by_cases hp : f.filePath = path
      · simp [activateFirst, hp, List.countP_cons, h1]
      · simp [activateFirst, hp, List.countP_cons, hfa]
        exact ih h1

theorem countP_updateFileSizeList (n : ℤ) (fs : List LogFileInfo) :
    (updateFileSizeList n fs).countP (fun f => f.isActive) =
      fs.countP (fun f => f.isActive) := by
  induction fs with
  | nil => simp [updateFileSizeList]
  | cons f fs ih =>
    by_cases h : f.isActive <;> simp [updateFileSizeList, h, ih, List.countP_cons]

theorem countActive_registerFile (t : Tracker) (c0 path : Str) (date : Date)
    (idx : ℤ) (c : Str) :
    countActive (registerFile t c0 path date idx) c = countActive t c := by
  unfold countActive registerFile filesOf
  by_cases h : c = c0
  · subst h
    rw [alFind?_emplace_self]
    simp [countP_registerFileList]
  · rw [alFind?_emplace_ne _ _ _ _ h]

theorem countActive_setFileActive_le (t : Tracker) (c0 path c : Str)
    (h : countActive t c ≤ 1) : countActive (setFileActive t c0 path) c ≤ 1 := by
  unfold setFileActive
  cases hf : alFind? c0 t with
  | none => exact h
  | some fs =>
    unfold countActive filesOf
    by_cases hc : c = c0
    · subst hc
      rw [alFind?_emplace_self]
      exact countP_activateFirst _ _ (countP_deactivateAll fs)
    · rw [alFind?_emplace_ne _ _ _ _ hc]
      exact h

theorem filesOf_removeFile (t : Tracker) (path c : Str) :
    filesOf (removeFileTracker t path) c =
      (filesOf t c).filter (fun f => !(f.filePath = path)) := by
  unfold filesOf removeFileTracker
  induction t with
  | nil => simp [alFind?]
  | cons p ps ih =>
    by_cases h : p.1 = c <;> simp [alFind?, h, ih]

theorem countActive_removeFile_le (t : Tracker) (path c : Str)
    (h : countActive t c ≤ 1) : countActive (removeFileTracker t path) c ≤ 1 := by
  unfold countActive
  rw [filesOf_removeFile]
  exact le_trans (List.Sublist.countP_le _ (List.filter_sublist _)) h

theorem countActive_updateFileSize_le (t : Tracker) (c0 : Str) (n : ℤ) (c : Str)
    (h : countActive t c ≤ 1) : countActive (updateFileSizeTracker t c0 n) c ≤ 1 := by
  unfold updateFileSizeTracker
  cases hf : alFind? c0 t with
  | none => exact h
  | some fs =>
    unfold countActive filesOf at h ⊢
    by_cases hc : c = c0
    · subst hc
      rw [alFind?_emplace_self]
      rw [hf] at h
      simpa [countP_updateFileSizeList] using h
    · rw [alFind?_emplace_ne _ _ _ _ hc]
      exact h

theorem countActive_rotate_le (t : Tracker) (now : Date) (c0 p c : Str)
    (h : ∀ c', countActive t c' ≤ 1) :
    countActive ((rotateFile ⟨defaultRotationConfig, t, 0⟩ now c0 p).2.fileTracker) c
      ≤ 1 := by
  unfold rotateFile
  have hvalid : 0 < defaultRotationConfig.maxFileSizeBytes ∧
      0 < defaultRotationConfig.retentionDays := by decide
  rw [if_neg (not_not_intro hvalid)]
  cases hp : parseLogFileName (getCleanFilename
      (generateRotatedFilePath t c0 (getPath p) now)) with
  | none =>
    simp only [hp]
    exact countActive_setFileActive_le _ _ _ _ (h c)
  | some pr =>
    simp only [hp]
    apply countActive_setFileActive_le
    rw [countActive_registerFile]
    exact countActive_setFileActive_le _ _ _ _ (h c)

theorem trackerInv_foldl (ops : List TrackerOp) :
    ∀ t : Tracker, (∀ c, countActive t c ≤ 1) →
      ∀ c, countActive (ops.foldl applyTrackerOp t) c ≤ 1 := by
  induction ops with
  | nil => intro t h; exact h
  | cons op ops ih =>
    intro t h
    apply ih
    intro c
    cases op with
    | register c0 path date idx =>
      simpa [applyTrackerOp, countActive_registerFile] using h c
    | setActive c0 path => exact countActive_setFileActive_le _ _ _ _ (h c)
    | remove path => exact countActive_removeFile_le _ _ _ (h c)
    | updateSize c0 n => exact countActive_updateFileSize_le _ _ _ _ (h c)
    | rotate now c0 p => exact countActive_rotate_le _ _ _ _ _ h

/-- C9 fails as stated: a channel the tracker knows about can have zero
active files — `RegisterFile` registers files inactive, so right after
the first registration the channel exists but nothing is active. -/
theorem claim_C9_counterexample :
    countActive
        (applyTrackerOps
          [.register "Gameplay".toList "base/f.json".toList ⟨2026, 10, 11⟩ 1])
        "Gameplay".toList = 0 ∧
      (alFind? "Gameplay".toList
          (applyTrackerOps
            [.register "Gameplay".toList "base/f.json".toList ⟨2026, 10, 11⟩ 1])).isSome
        = true := by
  decide

/-- C9 (amended): through every sequence of the tracker's public
operations (`RegisterFile`, `SetFileActive`, `RemoveFile`,
`UpdateFileSize`, rotation) starting from the empty tracker, every channel
has at most one file marked active; zero is reachable (e.g. right after
`RegisterFile`), so "exactly one" weakens to "at most one". -/
theorem claim_C9_at_most_one_active (ops : List TrackerOp) (c : Str) :
    countActive (applyTrackerOps ops) c ≤ 1 := by
  unfold applyTrackerOps
  exact trackerInv_foldl ops [] (fun c' => by simp [countActive, filesOf, alFind?]) c

/-! ## Trim skip margin (claim C7) -/

theorem trimChannel_trimmingEvents (s : Subsystem) (c : Str) (n : ℤ) :
    (trimChannelForMemory s c n).memoryTracker.trimmingEvents =
      s.memoryTracker.trimmingEvents := by
  unfold trimChannelForMemory
  cases hf : alFind? c s.logEntries with
  | none => rfl
  | some entries =>
    dsimp only
    by_cases h : n ≤ 0 ∨ entries.length = 0
    · rw [if_pos h]
    · rw [if_neg h]
      simp [MemoryTracker.remove]

theorem trimLoop_trimmingEvents (target : Nat) (L : List (Str × Nat)) :
    ∀ (s : Subsystem) (freed : Nat),
      (trimLoop target s freed L).1.memoryTracker.trimmingEvents =
        s.memoryTracker.trimmingEvents := by
  induction L with
  | nil => intro s freed; rfl
  | cons p rest ih =>
    intro s freed
    obtain ⟨c, usage⟩ := p
    unfold trimLoop
    by_cases ht : target ≤ freed
    · simp [ht]
    · rw [if_neg ht]
      cases hf : alFind? c s.logEntries with
      | none => exact ih s freed
      | some entries =>
        dsimp only
        by_cases hlen : entries.length = 0
        · rw [if_pos hlen]
          exact ih s freed
        · rw [if_neg hlen]
          rw [ih]
          exact trimChannel_trimmingEvents _ _ _

/-- C7: one eviction pass leaves the store exactly unchanged iff current
usage is at least the 2% safety buffer (`⌊budget × 0.02⌋` bytes) below the
budget; above that threshold the pass proceeds and records a trimming
event. -/
theorem claim_C7_trim_skip_margin (s : Subsystem) :
    (trimMemoryBudget s = s ↔
      s.memoryTracker.getTotal ≤
        s.memoryTracker.memoryBudget - s.memoryTracker.memoryBudget * 2 / 100) ∧
    (¬ s.memoryTracker.getTotal ≤
        s.memoryTracker.memoryBudget - s.memoryTracker.memoryBudget * 2 / 100 →
      (trimMemoryBudget s).memoryTracker.trimmingEvents =
        s.memoryTracker.trimmingEvents + 1) := by
  by_cases h : s.memoryTracker.getTotal ≤
      s.memoryTracker.memoryBudget - s.memoryTracker.memoryBudget * 2 / 100
  · constructor
    · simp [trimMemoryBudget, h]
    · intro hh
      exact absurd h hh
  · have hres : (trimMemoryBudget s).memoryTracker.trimmingEvents =
        s.memoryTracker.trimmingEvents + 1 := by
      unfold trimMemoryBudget
      rw [if_neg h]
      dsimp only
      rw [trimLoop_trimmingEvents]
    constructor
    · constructor
      · intro heq
        exfalso
        rw [heq] at hres
        omega
      · intro hh
        exact absurd hh h
    · intro _
      exact hres

/-- Witness for C7: a quiescent store (usage 0) is left unchanged. -/
theorem claim_C7_trim_skip_margin_witness :
    trimMemoryBudget sampleSubsystem = sampleSubsystem :=
  (claim_C7_trim_skip_margin sampleSubsystem).1.mpr (by decide)

/-! ## Splitting association lists at a key -/

theorem alFind?_mem {β : Type} (k : Str) (v : β) (l : List (Str × β))
    (hf : alFind? k l = some v) : (k, v) ∈ l := by
  induction l with
  | nil => simp [alFind?] at hf
  | cons p ps ih =>
    by_cases h : p.1 = k
    · rw [alFind?, if_pos h] at hf
      obtain ⟨p1, p2⟩ := p
      simp_all
    · rw [alFind?, if_neg h] at hf
      exact List.mem_cons_of_mem _ (ih hf)

theorem alFind?_split {β : Type} (k : Str) (w : β) (l : List (Str × β))
    (hf : alFind? k l = some w) :
    ∃ l1 l2, l = l1 ++ (k, w) :: l2 ∧ ∀ p ∈ l1, ¬ p.1 = k := by
  induction l with
  | nil => simp [alFind?] at hf
  | cons p ps ih =>
    by_cases h : p.1 = k
    · rw [alFind?, if_pos h] at hf
      obtain ⟨p1, p2⟩ := p
      have h' : p1 = k := h
      have hw : p2 = w := by injection hf
      subst h'
      subst hw
      exact ⟨[], ps, rfl, fun q hq => (List.not_mem_nil q hq).elim⟩
    · rw [alFind?, if_neg h] at hf
      obtain ⟨l1, l2, heq, hl1⟩ := ih hf
      refine ⟨p :: l1, l2, by simp [heq], ?_⟩
      intro q hq
      rcases List.mem_cons.mp hq with rfl | hq2
      · exact h
      · exact hl1 q hq2

theorem alEmplace_of_split {β : Type} (k : Str) (v w : β) (l1 l2 : List (Str × β))
    (hl1 : ∀ p ∈ l1, ¬ p.1 = k) :
    alEmplace k v (l1 ++ (k, w) :: l2) = l1 ++ (k, v) :: l2 := by
  induction l1 with
  | nil => simp [alEmplace]
  | cons p ps ih =>
    have hp : ¬ p.1 = k := hl1 p (by simp)
    simp only [List.cons_append, alEmplace, if_neg hp]
    exact congrArg (fun t => p :: t) (ih (fun q hq => hl1 q (by simp [hq])))

theorem alModify_of_split {β : Type} (k : Str) (f : β → β) (w : β)
    (l1 l2 : List (Str × β)) (hl1 : ∀ p ∈ l1, ¬ p.1 = k) :
    alModify k f (l1 ++ (k, w) :: l2) = l1 ++ (k, f w) :: l2 := by
  induction l1 with
  | nil => simp [alModify]
  | cons p ps ih =>
    have hp : ¬ p.1 = k := hl1 p (by simp)
    simp only [List.cons_append, alModify, if_neg hp]
    exact congrArg (fun t => p :: t) (ih (fun q hq => hl1 q (by simp [hq])))

theorem alKeys_emplace_mem {β : Type} (k : Str) (v w : β) (l : List (Str × β))
    (hf : alFind? k l = some w) : alKeys (alEmplace k v l) = alKeys l := by
  induction l with
  | nil => simp [alFind?] at hf
  | cons p ps ih =>
    by_cases h : p.1 = k
    · simp [alEmplace, alKeys, h]
    · rw [alFind?, if_neg h] at hf
      simp [alEmplace, alKeys, h] at ih ⊢
      exact ih hf

theorem alFind?_eq_none_iff {β : Type} (k : Str) (l : List (Str × β)) :
    alFind? k l = none ↔ k ∉ alKeys l := by
  induction l with
  | nil => simp [alFind?, alKeys]
  | cons p ps ih =>
    rw [alFind?]
    by_cases h : p.1 = k
    · simp only [if_pos h, alKeys, List.map_cons, List.mem_cons]
      constructor
      · intro hx
        exact Option.noConfusion hx
      · intro hx
        exact absurd (Or.inl h.symm) hx
    · simp only [if_neg h, alKeys, List.map_cons, List.mem_cons] at ih ⊢
      rw [ih]
      constructor
      · intro hx hmem
        rcases hmem with hmem | hmem
        · exact h hmem.symm
        · exact hx hmem
      · intro hx hmem
        exact hx (Or.inr hmem)

theorem alErase_sublist {β : Type} (k : Str) (l : List (Str × β)) :
    (alErase k l).Sublist l := List.filter_sublist l

/-! ## Entry-size sums -/

theorem calculateLogEntrySize_pos (e : LogEntry) : 0 < calculateLogEntrySize e := by
  unfold calculateLogEntrySize SIZEOF_FULMLOGENTRY
  omega

theorem entrySizeSum_pos (es : List LogEntry) (h : ¬ es = []) :
    0 < entrySizeSum es := by
  cases es with
  | nil => simp at h
  | cons e es =>
    have := calculateLogEntrySize_pos e
    simp [entrySizeSum]
    omega

theorem entrySizeSum_take_add_drop (k : Nat) (es : List LogEntry) :
    entrySizeSum (es.take k) + entrySizeSum (es.drop k) = entrySizeSum es := by
  unfold entrySizeSum
  rw [List.map_take, List.map_drop]
  exact List.sum_take_add_sum_drop _ _

theorem entrySizeSum_append (a b : List LogEntry) :
    entrySizeSum (a ++ b) = entrySizeSum a + entrySizeSum b := by
  simp [entrySizeSum]

/-! ## Exact bookkeeping of `TrimChannelForMemory` -/

theorem trimChannel_reduce (s : Subsystem) (c : Str) (es : List LogEntry) (n : ℤ)
    (hf : alFind? c s.logEntries = some es) (hn : 0 < n) (hne : ¬ es = []) :
    trimChannelForMemory s c n =
      { s with
          logEntries := alEmplace c (es.drop (min n.toNat es.length)) s.logEntries
          memoryTracker :=
            s.memoryTracker.remove c
              (entrySizeSum (es.take (min n.toNat es.length))) } := by
  have hcond : ¬ (n ≤ 0 ∨ es.length = 0) := by
    refine not_or.mpr ⟨not_le.mpr hn, fun h => hne (List.length_eq_zero.mp h)⟩
  unfold trimChannelForMemory
  rw [hf]
  dsimp only
  rw [if_neg hcond]

theorem alFind?_append_key {β : Type} (k : Str) (v : β) (l1 l2 : List (Str × β))
    (hl1 : ∀ p ∈ l1, ¬ p.1 = k) : alFind? k (l1 ++ (k, v) :: l2) = some v := by
  induction l1 with
  | nil => simp [alFind?]
  | cons p ps ih =>
    have hp : ¬ p.1 = k := hl1 p (by simp)
    simp only [List.cons_append, alFind?, if_neg hp]
    exact ih (fun q hq => hl1 q (by simp [hq]))

theorem alFind?_append_key_ne {β : Type} (k k' : Str) (v w : β)
    (l1 l2 : List (Str × β)) (h : ¬ k' = k) :
    alFind? k' (l1 ++ (k, v) :: l2) = alFind? k' (l1 ++ (k, w) :: l2) := by
  have h' : ¬ k = k' := fun hh => h hh.symm
  induction l1 with
  | nil => simp [alFind?, h']
  | cons p ps ih =>
    by_cases hp : p.1 = k' <;> simp [alFind?, hp, ih]

theorem trimChannel_spec (s : Subsystem) (c : Str) (es : List LogEntry) (n : ℤ)
    (hcons : Consistent s) (hf : alFind? c s.logEntries = some es)
    (hn : 0 < n) (hne : ¬ es = []) :
    Consistent (trimChannelForMemory s c n) ∧
      alFind? c (trimChannelForMemory s c n).logEntries =
        some (es.drop (min n.toNat es.length)) ∧
      (∀ c', ¬ c' = c →
        alFind? c' (trimChannelForMemory s c n).logEntries =
          alFind? c' s.logEntries) ∧
      (trimChannelForMemory s c n).memoryTracker.totalMemoryUsed =
        s.memoryTracker.totalMemoryUsed -
          (entrySizeSum (es.take (min n.toNat es.length)) : ℤ) ∧
      (trimChannelForMemory s c n).memoryTracker.memoryBudget =
        s.memoryTracker.memoryBudget ∧
      (trimChannelForMemory s c n).registry = s.registry := by
  obtain ⟨hnodupL, hnodupM, hchan, hsub, htot⟩ := hcons
  set k := min n.toNat es.length with hk
  set sz := entrySizeSum (es.take k) with hszdef
  have hred := trimChannel_reduce s c es n hf hn hne
  have memL : (c, es) ∈ s.logEntries := alFind?_mem _ _ _ hf
  have husage : s.memoryTracker.channelUsage c = entrySizeSum es := hchan _ memL
  have hsum_td : sz + entrySizeSum (es.drop k) = entrySizeSum es :=
    entrySizeSum_take_add_drop k es
  have hespos : 0 < entrySizeSum es := entrySizeSum_pos es hne
  obtain ⟨l1, l2, hsplit, hl1⟩ := alFind?_split c es _ hf
  obtain ⟨old, hmf, hold⟩ :
      ∃ old, alFind? c s.memoryTracker.channelMemoryUsage = some old ∧
        old = entrySizeSum es := by
    cases hmf : alFind? c s.memoryTracker.channelMemoryUsage with
    | none =>
      exfalso
      rw [MemoryTracker.channelUsage, hmf] at husage
      simp at husage
      omega
    | some old =>
      refine ⟨old, rfl, ?_⟩
      rw [MemoryTracker.channelUsage, hmf] at husage
      simpa using husage
  have hlog' : (trimChannelForMemory s c n).logEntries = l1 ++ (c, es.drop k) :: l2 := by
    rw [hred]
    dsimp only
    rw [hsplit, alEmplace_of_split _ _ _ _ _ hl1]
  have hkeys_old : alKeys s.logEntries = alKeys l1 ++ c :: alKeys l2 := by
    rw [hsplit]
    simp [alKeys]
  have hkeys_new : alKeys (l1 ++ (c, es.drop k) :: l2) = alKeys l1 ++ c :: alKeys l2 := by
    simp [alKeys]
  have hc_notin_l2 : ∀ p ∈ l2, ¬ p.1 = c := by
    intro p hp hpc
    rw [hkeys_old] at hnodupL
    have hnd := (List.nodup_append.mp hnodupL).2.1
    rw [List.nodup_cons] at hnd
    exact hnd.1 (hpc ▸ List.mem_map_of_mem Prod.fst hp)
  have htr' : (trimChannelForMemory s c n).memoryTracker =
      s.memoryTracker.remove c sz := by
    rw [hred]
  have hnw : (if sz < old then old - sz else 0) = entrySizeSum (es.drop k) := by
    by_cases hlt : sz < old
    · rw [if_pos hlt]
      omega
    · rw [if_neg hlt]
      omega
  have husage_self : (s.memoryTracker.remove c sz).channelUsage c =
      entrySizeSum (es.drop k) := by
    unfold MemoryTracker.remove MemoryTracker.channelUsage
    dsimp only
    rw [hmf]
    dsimp only
    by_cases hz : (if sz < old then old - sz else 0) = 0
    · rw [if_pos hz, alFind?_erase_self]
      rw [hz] at hnw
      simpa using hnw
    · rw [if_neg hz, alFind?_emplace_self]
      simpa using hnw
  have husage_other : ∀ c', ¬ c' = c →
      (s.memoryTracker.remove c sz).channelUsage c' =
        s.memoryTracker.channelUsage c' := by
    intro c' hc'
    unfold MemoryTracker.remove MemoryTracker.channelUsage
    dsimp only
    rw [hmf]
    dsimp only
    by_cases hz : (if sz < old then old - sz else 0) = 0
    · rw [if_pos hz, alFind?_erase_ne _ _ _ hc']
    · rw [if_neg hz, alFind?_emplace_ne _ _ _ _ hc']
  have hmapkeys : ∀ c', c' ∈ alKeys (s.memoryTracker.remove c sz).channelMemoryUsage →
      c' ∈ alKeys s.memoryTracker.channelMemoryUsage := by
    intro c' hc'
    unfold MemoryTracker.remove at hc'
    dsimp only at hc'
    rw [hmf] at hc'
    dsimp only at hc'
    by_cases hz : (if sz < old then old - sz else 0) = 0
    · rw [if_pos hz] at hc'
      exact ((alErase_sublist c _).map Prod.fst).subset hc'
    · rw [if_neg hz] at hc'
      rw [show alKeys (alEmplace c (if sz < old then old - sz else 0)
          s.memoryTracker.channelMemoryUsage) =
          alKeys s.memoryTracker.channelMemoryUsage from
        alKeys_emplace_mem _ _ _ _ hmf] at hc'
      exact hc'
  have hmapnodup : (alKeys (s.memoryTracker.remove c sz).channelMemoryUsage).Nodup := by
    unfold MemoryTracker.remove
    dsimp only
    rw [hmf]
    dsimp only
    by_cases hz : (if sz < old then old - sz else 0) = 0
    · rw [if_pos hz]
      exact List.Nodup.sublist ((alErase_sublist c _).map Prod.fst) hnodupM
    · rw [if_neg hz]
      rw [show alKeys (alEmplace c (if sz < old then old - sz else 0)
          s.memoryTracker.channelMemoryUsage) =
          alKeys s.memoryTracker.channelMemoryUsage from
        alKeys_emplace_mem _ _ _ _ hmf]
      exact hnodupM
  have htotal' : (s.memoryTracker.remove c sz).totalMemoryUsed =
      s.memoryTracker.totalMemoryUsed - (sz : ℤ) := rfl
  have hbudget' : (s.memoryTracker.remove c sz).memoryBudget =
      s.memoryTracker.memoryBudget := rfl
  have hsum_old : (s.logEntries.map (fun p => entrySizeSum p.2)).sum =
      (l1.map (fun p => entrySizeSum p.2)).sum + entrySizeSum es +
        (l2.map (fun p => entrySizeSum p.2)).sum := by
    rw [hsplit]
    simp
    omega
  have hsum_new : ((l1 ++ (c, es.drop k) :: l2).map (fun p => entrySizeSum p.2)).sum =
      (l1.map (fun p => entrySizeSum p.2)).sum + entrySizeSum (es.drop k) +
        (l2.map (fun p => entrySizeSum p.2)).sum := by
    simp
    omega
  refine ⟨⟨?_, ?_, ?_, ?_, ?_⟩, ?_, ?_, ?_, ?_, ?_⟩
  · rw [hlog', hkeys_new, ← hkeys_old]
    exact hnodupL
  · rw [htr']
    exact hmapnodup
  · rw [hlog', htr']
    intro p hp
    rcases List.mem_append.mp hp with hp1 | hp2
    · have hpc : ¬ p.1 = c := hl1 p hp1
      rw [husage_other _ hpc]
      have hmem : p ∈ s.logEntries := by
        rw [hsplit]
        exact List.mem_append_left _ hp1
      exact hchan p hmem
    · rcases List.mem_cons.mp hp2 with rfl | hp3
      · exact husage_self
      · have hpc : ¬ p.1 = c := hc_notin_l2 p hp3
        rw [husage_other _ hpc]
        have hmem : p ∈ s.logEntries := by
          rw [hsplit]
          exact List.mem_append_right _ (List.mem_cons_of_mem _ hp3)
        exact hchan p hmem
  · rw [hlog', htr']
    intro p hp
    have hkey : p.1 ∈ alKeys s.memoryTracker.channelMemoryUsage :=
      hmapkeys p.1 (List.mem_map_of_mem Prod.fst hp)
    rw [hkeys_new, ← hkeys_old]
    obtain ⟨q, hq, hq1⟩ := List.mem_map.mp hkey
    rw [← hq1]
    exact hsub q hq
  · rw [hlog', htr', htotal', htot, hsum_old, hsum_new]
    push_cast
    omega
  · rw [hlog']
    exact alFind?_append_key c _ l1 l2 hl1
  · intro c' hc'
    rw [hlog', hsplit]
    exact alFind?_append_key_ne c c' _ es l1 l2 hc'
  · rw [htr', htotal']
  · rw [htr', hbudget']
  · rw [hred]

/-! ## The trimming loop invariant (claim C3) -/

theorem trimRemovalCount_bounds (t f u len : Nat) (h : ¬ len = 0) :
    1 ≤ trimRemovalCount t f u len ∧ trimRemovalCount t f u len ≤ len := by
  unfold trimRemovalCount
  exact ⟨le_min (le_max_left _ _) (Nat.one_le_iff_ne_zero.mpr h), min_le_right _ _⟩

theorem consistent_channelUsage (s : Subsystem) (c : Str) (es : List LogEntry)
    (hcons : Consistent s) (hf : alFind? c s.logEntries = some es) :
    s.memoryTracker.channelUsage c = entrySizeSum es :=
  hcons.2.2.1 _ (alFind?_mem _ _ _ hf)

theorem trimLoop_spec (target : Nat) (L : List (Str × Nat)) :
    ∀ (s : Subsystem) (freed : Nat), Consistent s →
      Consistent (trimLoop target s freed L).1 ∧
        (trimLoop target s freed L).1.memoryTracker.totalMemoryUsed +
            ((trimLoop target s freed L).2 : ℤ) =
          s.memoryTracker.totalMemoryUsed + (freed : ℤ) ∧
        (trimLoop target s freed L).1.memoryTracker.memoryBudget =
          s.memoryTracker.memoryBudget := by
  induction L with
  | nil => intro s freed hcons; exact ⟨hcons, rfl, rfl⟩
  | cons p rest ih =>
    intro s freed hcons
    obtain ⟨c, usage⟩ := p
    unfold trimLoop
    by_cases ht : target ≤ freed
    · rw [if_pos ht]
      exact ⟨hcons, rfl, rfl⟩
    · rw [if_neg ht]
      cases hfind : alFind? c s.logEntries with
      | none => exact ih s freed hcons
      | some entries =>
        dsimp only
        by_cases hlen : entries.length = 0
        · rw [if_pos hlen]
          exact ih s freed hcons
        · rw [if_neg hlen]
          obtain ⟨hE1, hE2⟩ := trimRemovalCount_bounds target freed usage
            entries.length hlen
          have hne : ¬ entries = [] := fun hh => hlen (by simp [hh])
          have hEpos : (0 : ℤ) < ((trimRemovalCount target freed usage
              entries.length : Nat) : ℤ) := by
            exact_mod_cast hE1
          obtain ⟨hcons1, hfind1, _, htot1, hbud1, _⟩ :=
            trimChannel_spec s c entries
              ((trimRemovalCount target freed usage entries.length : Nat) : ℤ)
              hcons hfind hEpos hne
          have hk' : min ((trimRemovalCount target freed usage entries.length :
              Nat) : ℤ).toNat entries.length =
              trimRemovalCount target freed usage entries.length := by
            rw [Int.toNat_natCast]
            exact min_eq_left hE2
          rw [hk'] at hfind1 htot1
          have hbefore : s.memoryTracker.channelUsage c = entrySizeSum entries :=
            consistent_channelUsage s c entries hcons hfind
          have hafter : (trimChannelForMemory s c
              ((trimRemovalCount target freed usage entries.length : Nat) : ℤ)
              ).memoryTracker.channelUsage c =
              entrySizeSum (entries.drop
                (trimRemovalCount target freed usage entries.length)) :=
            consistent_channelUsage _ c _ hcons1 hfind1
          have hsum_td := entrySizeSum_take_add_drop
            (trimRemovalCount target freed usage entries.length) entries
          obtain ⟨ihc, ihtot, ihbud⟩ := ih
            (trimChannelForMemory s c
              ((trimRemovalCount target freed usage entries.length : Nat) : ℤ))
            (freed + (s.memoryTracker.channelUsage c -
              (trimChannelForMemory s c
                ((trimRemovalCount target freed usage entries.length : Nat) : ℤ)
                ).memoryTracker.channelUsage c))
            hcons1
          refine ⟨ihc, ?_, by rw [ihbud, hbud1]⟩
          rw [ihtot, htot1, hbefore, hafter]
          have hdrople : entrySizeSum (entries.drop
              (trimRemovalCount target freed usage entries.length)) ≤
              entrySizeSum entries := by omega
          push_cast
          omega

theorem trimLoop_stop (target : Nat) (s : Subsystem) (freed : Nat)
    (L : List (Str × Nat)) (h : target ≤ freed) :
    trimLoop target s freed L = (s, freed) := by
  cases L with
  | nil => rfl
  | cons p rest =>
    obtain ⟨c, usage⟩ := p
    unfold trimLoop
    rw [if_pos h]

/-! ## Sorting by usage, descending -/

theorem mem_insertDesc (x b : Str × Nat) (l : List (Str × Nat)) :
    b ∈ insertDesc x l ↔ b = x ∨ b ∈ l := by
  induction l with
  | nil => simp [insertDesc]
  | cons y ys ih =>
    rcases Classical.em (y.2 < x.2) with h | h
    · simp [insertDesc, h, ih]
    · simp [insertDesc, h, ih]
      tauto

theorem insertDesc_sorted (x : Str × Nat) (l : List (Str × Nat))
    (h : l.Pairwise (fun a b => b.2 ≤ a.2)) :
    (insertDesc x l).Pairwise (fun a b => b.2 ≤ a.2) := by
  induction l with
  | nil => simp [insertDesc]
  | cons y ys ih =>
    rw [List.pairwise_cons] at h
    by_cases hc : y.2 < x.2
    · rw [insertDesc, if_pos hc, List.pairwise_cons]
      refine ⟨?_, List.pairwise_cons.mpr h⟩
      intro b hb
      rcases List.mem_cons.mp hb with rfl | hb2
      · exact le_of_lt hc
      · exact le_trans (h.1 b hb2) (le_of_lt hc)
    · rw [insertDesc, if_neg hc, List.pairwise_cons]
      refine ⟨?_, ih h.2⟩
      intro b hb
      rcases (mem_insertDesc x b ys).mp hb with rfl | hb2
      · exact not_lt.mp hc
      · exact h.1 b hb2

theorem sortChannelsDesc_sorted (l : List (Str × Nat)) :
    (sortChannelsDesc l).Pairwise (fun a b => b.2 ≤ a.2) := by
  unfold sortChannelsDesc
  induction l with
  | nil => simp
  | cons p ps ih => exact insertDesc_sorted p _ ih

/-! ## Claim C3: the eviction pass -/

theorem ratFloor_eq_intFloor (q : ℚ) : q.floor = ⌊q⌋ := rfl

theorem c3_target_value : trimTargetReduction 12480 10000 = 7480 := by
  unfold trimTargetReduction trimTargetPercent
  rw [if_pos (by norm_num : (12 / 10 : ℚ) < ((12480 : ℕ) : ℚ) / ((10000 : ℕ) : ℚ))]
  rw [show ((12480 : ℕ) : ℚ) - ((10000 : ℕ) : ℚ) * (1 / 2) = ((7480 : ℕ) : ℚ) by
    push_cast
    norm_num]
  rw [ratFloor_eq_intFloor, Int.floor_natCast]
  rfl

theorem c3_store_target :
    trimTargetReduction overBudgetStore.memoryTracker.getTotal
      overBudgetStore.memoryTracker.memoryBudget = 7480 := by
  rw [show overBudgetStore.memoryTracker.getTotal = 12480 from rfl,
    show overBudgetStore.memoryTracker.memoryBudget = 10000 from rfl]
  exact c3_target_value

theorem c3_removal_count : trimRemovalCount 7480 0 12480 130 = 97 := by
  unfold trimRemovalCount
  dsimp only
  rw [if_pos (by norm_num : ((12480 : ℕ) : ℚ) * (1 / 2) < ((7480 - 0 : ℕ) : ℚ))]
  rw [ratFloor_eq_intFloor]
  rw [show ⌊((130 : ℕ) : ℚ) * (3 / 4)⌋ = (97 : ℤ) by
    rw [Int.floor_eq_iff]
    constructor <;> norm_num]
  decide

set_option maxRecDepth 40000 in
theorem c3_eval : trimMemoryBudget overBudgetStore =
    { registry := sampleRegistry
      logEntries := [("Gameplay".toList, List.replicate 33 sampleTrimEntry)]
      memoryTracker :=
        { totalMemoryUsed := 3168, totalEntries := 129, trimmingEvents := 1
          channelMemoryUsage := [("Gameplay".toList, 3168)], memoryBudget := 10000 }
      messageQueue := []
      queueDiagnostics := ⟨0, 0, 0, 0⟩
      fileWriteQueue := []
      fileLoggingEnabled := false } := by
  unfold trimMemoryBudget
  rw [if_neg (by decide)]
  dsimp only
  rw [c3_store_target]
  rw [show channelsByUsage overBudgetStore = [("Gameplay".toList, 12480)] from by decide]
  rw [show trimLoop 7480 overBudgetStore 0 [("Gameplay".toList, 12480)] =
      (trimChannelForMemory overBudgetStore "Gameplay".toList ((97 : ℕ) : ℤ),
        0 + (overBudgetStore.memoryTracker.channelUsage "Gameplay".toList -
          (trimChannelForMemory overBudgetStore "Gameplay".toList ((97 : ℕ) : ℤ)
            ).memoryTracker.channelUsage "Gameplay".toList)) by
    rw [trimLoop]
    rw [if_neg (by decide : ¬ (7480 ≤ 0))]
    rw [show alFind? "Gameplay".toList overBudgetStore.logEntries =
        some (List.replicate 130 sampleTrimEntry) from by decide]
    dsimp only
    rw [if_neg (by decide : ¬ (List.replicate 130 sampleTrimEntry).length = 0)]
    rw [show (List.replicate 130 sampleTrimEntry).length = 130 from by decide]
    rw [c3_removal_count]
    rfl]
  decide

set_option maxRecDepth 40000 in
/-- C3 fails as stated: at a consistent store 24.8% over a 10000-byte
budget (130 equal 96-byte entries on one channel), the pass removes 97
entries even though removing the 78 oldest already frees the computed
target reduction — the loop's `max(1, ⌊0.75·n⌋)` batch overshoots, so the
pass can remove more entries than required. -/
theorem claim_C3_counterexample :
    6 * overBudgetStore.memoryTracker.memoryBudget <
        5 * overBudgetStore.memoryTracker.getTotal ∧
      Consistent overBudgetStore ∧
      (entriesOf (trimMemoryBudget overBudgetStore) "Gameplay".toList).length = 33 ∧
      trimTargetReduction overBudgetStore.memoryTracker.getTotal
          overBudgetStore.memoryTracker.memoryBudget ≤
        entrySizeSum ((entriesOf overBudgetStore "Gameplay".toList).take 78) ∧
      78 < (entriesOf overBudgetStore "Gameplay".toList).length -
        (entriesOf (trimMemoryBudget overBudgetStore) "Gameplay".toList).length := by
  refine ⟨by decide, by decide, ?_, ?_, ?_⟩
  · rw [c3_eval]
    decide
  · rw [c3_store_target]
    decide
  · rw [c3_eval]
    decide

/-- C3 (amended): with usage above 120% of a budget `B ≥ 2`, the eviction
pass visits channels in descending order of usage, removes entries from a
channel only while the freed total is still below the computed target
reduction (`usage − 0.5·B`), and — whenever the single pass frees at
least that target — leaves tracked usage at most `0.75·B` (indeed at most
`⌈B/2⌉`); the per-channel batch may overshoot the target, and a pass
whose batches cannot reach the target may stay above `0.75·B`. -/
theorem claim_C3_eviction_pass (s : Subsystem)
    (hcons : Consistent s)
    (hB : 2 ≤ s.memoryTracker.memoryBudget)
    (hU : 6 * s.memoryTracker.memoryBudget < 5 * s.memoryTracker.getTotal) :
    (channelsByUsage s).Pairwise (fun a b => b.2 ≤ a.2) ∧
      (∀ freed, trimTargetReduction s.memoryTracker.getTotal
          s.memoryTracker.memoryBudget ≤ freed →
        trimLoop (trimTargetReduction s.memoryTracker.getTotal
            s.memoryTracker.memoryBudget) s freed (channelsByUsage s) = (s, freed)) ∧
      (trimTargetReduction s.memoryTracker.getTotal s.memoryTracker.memoryBudget ≤
          (trimLoop (trimTargetReduction s.memoryTracker.getTotal
            s.memoryTracker.memoryBudget) s 0 (channelsByUsage s)).2 →
        4 * (trimMemoryBudget s).memoryTracker.getTotal ≤
          3 * s.memoryTracker.memoryBudget) := by
  refine ⟨sortChannelsDesc_sorted _, fun freed h => trimLoop_stop _ _ _ _ h, ?_⟩
  intro hreach
  have hBpos : 0 < s.memoryTracker.memoryBudget := by omega
  have hUB : s.memoryTracker.memoryBudget < s.memoryTracker.getTotal := by omega
  have hskip : ¬ (s.memoryTracker.getTotal ≤
      s.memoryTracker.memoryBudget - s.memoryTracker.memoryBudget * 2 / 100) := by
    omega
  have hBQ : (0 : ℚ) < (s.memoryTracker.memoryBudget : ℚ) := by exact_mod_cast hBpos
  have hUQ : 6 * (s.memoryTracker.memoryBudget : ℚ) <
      5 * (s.memoryTracker.getTotal : ℚ) := by exact_mod_cast hU
  have hpct : trimTargetPercent s.memoryTracker.getTotal
      s.memoryTracker.memoryBudget = 1 / 2 := by
    unfold trimTargetPercent
    rw [if_pos (by rw [lt_div_iff₀ hBQ]; linarith)]
  have hx_nonneg : (0 : ℚ) ≤ (s.memoryTracker.getTotal : ℚ) -
      (s.memoryTracker.memoryBudget : ℚ) * (1 / 2) := by
    have hc : (s.memoryTracker.memoryBudget : ℚ) <
        (s.memoryTracker.getTotal : ℚ) := by exact_mod_cast hUB
    linarith
  have hfl_nonneg : (0 : ℤ) ≤ ⌊(s.memoryTracker.getTotal : ℚ) -
      (s.memoryTracker.memoryBudget : ℚ) * (1 / 2)⌋ :=
    Int.floor_nonneg.mpr hx_nonneg
  have hTdef : ((trimTargetReduction s.memoryTracker.getTotal
      s.memoryTracker.memoryBudget : ℕ) : ℤ) =
      ⌊(s.memoryTracker.getTotal : ℚ) -
        (s.memoryTracker.memoryBudget : ℚ) * (1 / 2)⌋ := by
    unfold trimTargetReduction
    rw [hpct, ratFloor_eq_intFloor]
    exact Int.toNat_of_nonneg hfl_nonneg
  have hTgt : (s.memoryTracker.getTotal : ℚ) -
      (s.memoryTracker.memoryBudget : ℚ) * (1 / 2) - 1 <
      ((trimTargetReduction s.memoryTracker.getTotal
        s.memoryTracker.memoryBudget : ℕ) : ℚ) := by
    have h2 : (((trimTargetReduction s.memoryTracker.getTotal
        s.memoryTracker.memoryBudget : ℕ) : ℤ) : ℚ) =
        ((⌊(s.memoryTracker.getTotal : ℚ) -
          (s.memoryTracker.memoryBudget : ℚ) * (1 / 2)⌋ : ℤ) : ℚ) := by
      exact_mod_cast hTdef
    push_cast at h2
    rw [h2]
    exact Int.sub_one_lt_floor _
  have hZ : 2 * (s.memoryTracker.getTotal : ℤ) -
      2 * ((trimTargetReduction s.memoryTracker.getTotal
        s.memoryTracker.memoryBudget : ℕ) : ℤ) <
      (s.memoryTracker.memoryBudget : ℤ) + 2 := by
    have hq : 2 * (s.memoryTracker.getTotal : ℚ) -
        2 * ((trimTargetReduction s.memoryTracker.getTotal
          s.memoryTracker.memoryBudget : ℕ) : ℚ) <
        (s.memoryTracker.memoryBudget : ℚ) + 2 := by linarith
    exact_mod_cast hq
  obtain ⟨hcons', hinv, hbud⟩ := trimLoop_spec
    (trimTargetReduction s.memoryTracker.getTotal s.memoryTracker.memoryBudget)
    (channelsByUsage s) s 0 hcons
  have hstot_nn : 0 ≤ s.memoryTracker.totalMemoryUsed := by
    rw [hcons.2.2.2.2]
    exact Int.natCast_nonneg _
  have hstot : (s.memoryTracker.getTotal : ℤ) = s.memoryTracker.totalMemoryUsed :=
    Int.toNat_of_nonneg hstot_nn
  have hrtot_nn : 0 ≤ (trimLoop
      (trimTargetReduction s.memoryTracker.getTotal s.memoryTracker.memoryBudget)
      s 0 (channelsByUsage s)).1.memoryTracker.totalMemoryUsed := by
    rw [hcons'.2.2.2.2]
    exact Int.natCast_nonneg _
  have hfinal : (trimMemoryBudget s).memoryTracker.totalMemoryUsed =
      (trimLoop (trimTargetReduction s.memoryTracker.getTotal
        s.memoryTracker.memoryBudget) s 0 (channelsByUsage s)
        ).1.memoryTracker.totalMemoryUsed := by
    unfold trimMemoryBudget
    dsimp only
    rw [if_neg hskip]
  unfold MemoryTracker.getTotal
  rw [hfinal]
  omega

set_option maxRecDepth 40000 in
/-- Witness for the amended C3 at the over-budget sample store: once the
freed total has reached the target reduction, the loop removes nothing
further. -/
theorem claim_C3_eviction_pass_witness :
    trimLoop (trimTargetReduction overBudgetStore.memoryTracker.getTotal
        overBudgetStore.memoryTracker.memoryBudget) overBudgetStore 7480
      (channelsByUsage overBudgetStore) = (overBudgetStore, 7480) :=
  (claim_C3_eviction_pass overBudgetStore (by decide) (by decide) (by decide)).2.1
    7480 (le_of_eq c3_store_target)

/-! ## Claim C4: the per-channel retained-entry cap -/

theorem entrySizeSum_cons (e : LogEntry) (l : List LogEntry) :
    entrySizeSum (e :: l) = calculateLogEntrySize e + entrySizeSum l := by
  simp [entrySizeSum]

theorem storeTail_cap (s' : Subsystem) (c : Str) (Es1 : List LogEntry) (M : Nat)
    (hf1 : alFind? c s'.logEntries = some Es1) (hne : ¬ Es1 = []) :
    alFind? c (if (M : ℤ) < (Es1.length : ℤ) then
        trimChannelForMemory s' c ((Es1.length : ℤ) - (M : ℤ)) else s').logEntries =
        some (Es1.drop (Es1.length - M)) ∧
      (if (M : ℤ) < (Es1.length : ℤ) then
        trimChannelForMemory s' c ((Es1.length : ℤ) - (M : ℤ)) else s').registry =
        s'.registry ∧
      (if (M : ℤ) < (Es1.length : ℤ) then
        trimChannelForMemory s' c ((Es1.length : ℤ) - (M : ℤ))
        else s').memoryTracker.memoryBudget = s'.memoryTracker.memoryBudget ∧
      (if (M : ℤ) < (Es1.length : ℤ) then
        trimChannelForMemory s' c ((Es1.length : ℤ) - (M : ℤ))
        else s').memoryTracker.totalMemoryUsed ≤ s'.memoryTracker.totalMemoryUsed := by
  by_cases hlt : (M : ℤ) < (Es1.length : ℤ)
  · rw [if_pos hlt]
    have hn : (0 : ℤ) < (Es1.length : ℤ) - (M : ℤ) := by omega
    rw [trimChannel_reduce s' c Es1 ((Es1.length : ℤ) - (M : ℤ)) hf1 hn hne]
    have hk : min ((Es1.length : ℤ) - (M : ℤ)).toNat Es1.length = Es1.length - M := by
      omega
    rw [hk]
    refine ⟨?_, rfl, rfl, ?_⟩
    · dsimp only
      exact alFind?_emplace_self c (Es1.drop (Es1.length - M)) s'.logEntries
    · dsimp only [MemoryTracker.remove]
      omega
  · rw [if_neg hlt]
    have h0 : Es1.length - M = 0 := by omega
    rw [h0, List.drop_zero]
    exact ⟨hf1, rfl, rfl, le_refl _⟩

theorem storeCore_step (s : Subsystem) (e : LogEntry) (sz : Nat) (Es0 : List LogEntry)
    (M : Nat) (hf : alFind? e.channel s.logEntries = some Es0)
    (hcfg : (getChannelConfigReg s.registry e.channel).maxLogEntries = (M : ℤ)) :
    alFind? e.channel (storeProcessedLogEntryCore s e sz).logEntries =
        some ((Es0 ++ [e]).drop ((Es0 ++ [e]).length - M)) ∧
      (storeProcessedLogEntryCore s e sz).registry = s.registry ∧
      (storeProcessedLogEntryCore s e sz).memoryTracker.memoryBudget =
        s.memoryTracker.memoryBudget ∧
      (storeProcessedLogEntryCore s e sz).memoryTracker.totalMemoryUsed ≤
        s.memoryTracker.totalMemoryUsed + (sz : ℤ) := by
  have hpres : (alFind? e.channel s.logEntries).isSome = true := by
    rw [hf]
    rfl
  have hmod : alFind? e.channel
      (alModify e.channel (fun es => es ++ [e]) s.logEntries) = some (Es0 ++ [e]) := by
    rw [alFind?_modify_self, hf]
    rfl
  unfold storeProcessedLogEntryCore
  rw [if_pos hpres]
  dsimp only
  by_cases hq : s.fileLoggingEnabled = true ∧ e.channel ≠ "ULM".toList
  · rw [if_pos hq]
    dsimp only
    simp only [entriesOf]
    rw [hmod]
    simp only [Option.getD_some]
    rw [hcfg]
    apply storeTail_cap
    · exact hmod
    · simp
  · rw [if_neg hq]
    dsimp only
    simp only [entriesOf]
    rw [hmod]
    simp only [Option.getD_some]
    rw [hcfg]
    apply storeTail_cap
    · exact hmod
    · simp

theorem store_step (s : Subsystem) (e : LogEntry) (Es0 : List LogEntry) (M : Nat)
    (hmaster : isChannelInMasterList e.channel = true)
    (hf : alFind? e.channel s.logEntries = some Es0)
    (hcfg : (getChannelConfigReg s.registry e.channel).maxLogEntries = (M : ℤ))
    (hroom : s.memoryTracker.getTotal + calculateLogEntrySize e ≤
      s.memoryTracker.memoryBudget) :
    alFind? e.channel (storeProcessedLogEntry s e).logEntries =
        some ((Es0 ++ [e]).drop ((Es0 ++ [e]).length - M)) ∧
      (storeProcessedLogEntry s e).registry = s.registry ∧
      (storeProcessedLogEntry s e).memoryTracker.memoryBudget =
        s.memoryTracker.memoryBudget ∧
      (storeProcessedLogEntry s e).memoryTracker.totalMemoryUsed ≤
        s.memoryTracker.totalMemoryUsed + (calculateLogEntrySize e : ℤ) := by
  have hnm : ¬ isChannelInMasterList e.channel = false := by simp [hmaster]
  have hwb : ¬ s.memoryTracker.wouldExceedBudget (calculateLogEntrySize e) = true := by
    unfold MemoryTracker.wouldExceedBudget
    simp only [decide_eq_true_eq]
    omega
  unfold storeProcessedLogEntry
  rw [if_neg hnm]
  dsimp only
  rw [if_neg hwb]
  exact storeCore_step s e (calculateLogEntrySize e) Es0 M hf hcfg

theorem storeMany_spec (c : Str) (M : Nat)
    (hmaster : isChannelInMasterList c = true) :
    ∀ (L : List LogEntry) (s : Subsystem) (Es0 : List LogEntry),
      (∀ e ∈ L, e.channel = c) →
      alFind? c s.logEntries = some Es0 →
      (getChannelConfigReg s.registry c).maxLogEntries = (M : ℤ) →
      Es0.length ≤ M →
      s.memoryTracker.getTotal + entrySizeSum L ≤ s.memoryTracker.memoryBudget →
      alFind? c (storeMany s L).logEntries =
          some ((Es0 ++ L).drop (Es0.length + L.length - M)) ∧
        (storeMany s L).registry = s.registry ∧
        (storeMany s L).memoryTracker.memoryBudget = s.memoryTracker.memoryBudget ∧
        (storeMany s L).memoryTracker.totalMemoryUsed ≤
          s.memoryTracker.totalMemoryUsed + (entrySizeSum L : ℤ) := by
  intro L
  induction L with
  | nil =>
    intro s Es0 _ hf _ hlen _
    refine ⟨?_, rfl, rfl, ?_⟩
    · simp only [storeMany, List.foldl_nil, List.length_nil, List.append_nil,
        Nat.add_zero]
      rw [show Es0.length - M = 0 from by omega, List.drop_zero]
      exact hf
    · simp only [storeMany, List.foldl_nil]
      have h0 : entrySizeSum ([] : List LogEntry) = 0 := rfl
      omega
  | cons e L' ih =>
    intro s Es0 hchan hf hcfg hlen hroom
    have hec : e.channel = c := hchan e (by simp)
    have hfE : alFind? e.channel s.logEntries = some Es0 := by
      rw [hec]
      exact hf
    have hcfgE : (getChannelConfigReg s.registry e.channel).maxLogEntries = (M : ℤ) := by
      rw [hec]
      exact hcfg
    have hmasterE : isChannelInMasterList e.channel = true := by
      rw [hec]
      exact hmaster
    have hsumc : entrySizeSum (e :: L') = calculateLogEntrySize e + entrySizeSum L' :=
      entrySizeSum_cons e L'
    have hroomE : s.memoryTracker.getTotal + calculateLogEntrySize e ≤
        s.memoryTracker.memoryBudget := by omega
    obtain ⟨h1, h2, h3, h4⟩ := store_step s e Es0 M hmasterE hfE hcfgE hroomE
    have hstep : storeMany s (e :: L') = storeMany (storeProcessedLogEntry s e) L' := rfl
    rw [hstep]
    have h1c : alFind? c (storeProcessedLogEntry s e).logEntries =
        some ((Es0 ++ [e]).drop ((Es0 ++ [e]).length - M)) := by
      rw [← hec]
      exact h1
    have hE : (Es0 ++ [e]).length = Es0.length + 1 := by simp
    have hlen1 : ((Es0 ++ [e]).drop ((Es0 ++ [e]).length - M)).length ≤ M := by
      rw [List.length_drop]
      omega
    have hcfg1 : (getChannelConfigReg (storeProcessedLogEntry s e).registry
        c).maxLogEntries = (M : ℤ) := by
      rw [h2]
      exact hcfg
    have hchan' : ∀ x ∈ L', x.channel = c := fun x hx => hchan x (by simp [hx])
    have hroom1 : (storeProcessedLogEntry s e).memoryTracker.getTotal +
        entrySizeSum L' ≤ (storeProcessedLogEntry s e).memoryTracker.memoryBudget := by
      rw [h3]
      unfold MemoryTracker.getTotal at hroom ⊢
      omega
    obtain ⟨g1, g2, g3, g4⟩ :=
      ih (storeProcessedLogEntry s e) _ hchan' h1c hcfg1 hlen1 hroom1
    refine ⟨?_, by rw [g2, h2], by rw [g3, h3], ?_⟩
    · rw [g1]
      have hdle : (Es0 ++ [e]).length - M ≤ (Es0 ++ [e]).length := Nat.sub_le _ _
      have hEs1L : (Es0 ++ [e]).drop ((Es0 ++ [e]).length - M) ++ L' =
          ((Es0 ++ [e]) ++ L').drop ((Es0 ++ [e]).length - M) :=
        (List.drop_append_of_le_length hdle).symm
      have hlen1' : ((Es0 ++ [e]).drop ((Es0 ++ [e]).length - M)).length =
          (Es0 ++ [e]).length - ((Es0 ++ [e]).length - M) := List.length_drop _ _
      have hassoc : (Es0 ++ [e]) ++ L' = Es0 ++ e :: L' := by simp
      rw [hEs1L, List.drop_drop, hassoc]
      congr 2
      simp only [List.length_cons]
      omega
    · omega

set_option maxRecDepth 4000 in
/-- C4: with the channel's cap configured at M and enough budget headroom
that the eviction pass never runs, pushing a list of M + K entries
(K ≥ 1) through the storage path into an initially empty channel retains
exactly the last M of them in insertion order — the K oldest are trimmed
from the front — and after every prefix of the insertions the retained
count is at most M. -/
theorem claim_C4_retention_cap (s : Subsystem) (c : Str) (M K : Nat)
    (L : List LogEntry)
    (hmaster : isChannelInMasterList c = true) (hM : 1 ≤ M) (hK : 1 ≤ K)
    (hf : alFind? c s.logEntries = some [])
    (hcfg : (getChannelConfigReg s.registry c).maxLogEntries = (M : ℤ))
    (hchan : ∀ e ∈ L, e.channel = c)
    (hlen : L.length = M + K)
    (hroom : s.memoryTracker.getTotal + entrySizeSum L ≤
      s.memoryTracker.memoryBudget) :
    entriesOf (storeMany s L) c = L.drop K ∧
      (entriesOf (storeMany s L) c).length = M ∧
      ∀ P T, L = P ++ T → (entriesOf (storeMany s P) c).length ≤ M := by
  obtain ⟨m1, _, _, _⟩ := storeMany_spec c M hmaster L s [] hchan hf hcfg (by simp) hroom
  have hEq : entriesOf (storeMany s L) c = L.drop K := by
    unfold entriesOf
    rw [m1]
    simp only [Option.getD_some, List.nil_append, List.length_nil, Nat.zero_add]
    congr 1
    omega
  refine ⟨hEq, ?_, ?_⟩
  · rw [hEq, List.length_drop]
    omega
  · intro P T hPT
    have hchanP : ∀ x ∈ P, x.channel = c := fun x hx =>
      hchan x (by rw [hPT]; exact List.mem_append_left _ hx)
    have hroomP : s.memoryTracker.getTotal + entrySizeSum P ≤
        s.memoryTracker.memoryBudget := by
      have hs : entrySizeSum L = entrySizeSum P + entrySizeSum T := by
        rw [hPT, entrySizeSum_append]
      omega
    obtain ⟨p1, _, _, _⟩ :=
      storeMany_spec c M hmaster P s [] hchanP hf hcfg (by simp) hroomP
    unfold entriesOf
    rw [p1]
    simp only [Option.getD_some, List.nil_append, List.length_nil, Nat.zero_add,
      List.length_drop]
    omega

set_option maxRecDepth 4000 in
/-- Witness for C4 at a concrete store: cap 2, three entries pushed, the
last two retained in order. -/
theorem claim_C4_retention_cap_witness :
    entriesOf (storeMany c4Store c4Entries) "Gameplay".toList = c4Entries.drop 1 ∧
      (entriesOf (storeMany c4Store c4Entries) "Gameplay".toList).length = 2 :=
  ⟨(claim_C4_retention_cap c4Store "Gameplay".toList 2 1 c4Entries (by decide)
      (by decide) (by decide) (by decide) (by decide) (by decide) (by decide)
      (by decide)).1,
   (claim_C4_retention_cap c4Store "Gameplay".toList 2 1 c4Entries (by decide)
      (by decide) (by decide) (by decide) (by decide) (by decide) (by decide)
      (by decide)).2.1⟩

/-! ## Claim C8: digit rendering and parsing round-trips -/

theorem charVal_digitChar (m : Nat) (h : m < 10) : charVal (digitChar m) = m := by
  interval_cases m <;> decide

theorem isDigitChar_digitChar (m : Nat) (h : m < 10) :
    isDigitChar (digitChar m) = true := by
  interval_cases m <;> decide

theorem natToDigitsRev_digits (fuel : Nat) :
    ∀ n, ∀ ch ∈ natToDigitsRev fuel n, isDigitChar ch = true := by
  induction fuel with
  | zero =>
    intro n ch hch
    exact absurd hch (List.not_mem_nil ch)
  | succ fuel ih =>
    intro n ch hch
    rw [natToDigitsRev] at hch
    by_cases h : n = 0
    · rw [if_pos h] at hch
      exact absurd hch (List.not_mem_nil ch)
    · rw [if_neg h] at hch
      rcases List.mem_cons.mp hch with rfl | hch'
      · exact isDigitChar_digitChar _ (Nat.mod_lt n (by norm_num))
      · exact ih (n / 10) ch hch'

theorem decimalStr_digits (n : Nat) : ∀ ch ∈ decimalStr n, isDigitChar ch = true := by
  unfold decimalStr
  by_cases h : n = 0
  · rw [if_pos h]
    intro ch hch
    rcases List.mem_singleton.mp hch with rfl
    decide
  · rw [if_neg h]
    intro ch hch
    exact natToDigitsRev_digits n n ch (List.mem_reverse.mp hch)

theorem digitsVal_concat (l : List Char) (ch : Char) :
    digitsVal (l ++ [ch]) = digitsVal l * 10 + charVal ch := by
  unfold digitsVal
  rw [List.foldl_append]
  rfl

theorem digitsVal_natToDigitsRev (fuel : Nat) :
    ∀ n, n ≤ fuel → digitsVal (natToDigitsRev fuel n).reverse = n := by
  induction fuel with
  | zero =>
    intro n hn
    have h0 : n = 0 := by omega
    rw [h0]
    rfl
  | succ fuel ih =>
    intro n hn
    rw [natToDigitsRev]
    by_cases h : n = 0
    · rw [if_pos h, h]
      rfl
    · have hlt : n / 10 < n := Nat.div_lt_self (Nat.pos_of_ne_zero h) (by norm_num)
      rw [if_neg h, List.reverse_cons, digitsVal_concat,
        ih (n / 10) (by omega),
        charVal_digitChar _ (Nat.mod_lt n (by norm_num))]
      omega

theorem digitsVal_decimalStr (n : Nat) : digitsVal (decimalStr n) = n := by
  unfold decimalStr
  by_cases h : n = 0
  · rw [if_pos h, h]
    rfl
  · rw [if_neg h]
    exact digitsVal_natToDigitsRev n n (le_refl n)

theorem digitsVal_zero_pad (k : Nat) (l : List Char) :
    digitsVal (List.replicate k '0' ++ l) = digitsVal l := by
  induction k with
  | zero => rfl
  | succ k ih =>
    rw [List.replicate_succ, List.cons_append]
    unfold digitsVal
    rw [List.foldl_cons]
    rw [show (0 * 10 + charVal '0') = 0 from by decide]
    exact ih

theorem takeWhile_all (p : Char → Bool) (l : List Char)
    (h : ∀ x ∈ l, p x = true) : l.takeWhile p = l := by
  induction l with
  | nil => rfl
  | cons x xs ih =>
    rw [List.takeWhile_cons, h x (by simp)]
    rw [ih (fun a ha => h a (by simp [ha]))]
    simp

theorem takeWhile_append_stop (p : Char → Bool) (xs ys : List Char) (y : Char)
    (hxs : ∀ x ∈ xs, p x = true) (hy : p y = false) :
    (xs ++ y :: ys).takeWhile p = xs := by
  induction xs with
  | nil =>
    rw [List.nil_append, List.takeWhile_cons, hy]
    simp
  | cons x xs ih =>
    rw [List.cons_append, List.takeWhile_cons, hxs x (by simp)]
    rw [ih (fun a ha => hxs a (by simp [ha]))]
    simp

theorem dropWhile_append_stop (p : Char → Bool) (xs ys : List Char) (y : Char)
    (hxs : ∀ x ∈ xs, p x = true) (hy : p y = false) :
    (xs ++ y :: ys).dropWhile p = y :: ys := by
  induction xs with
  | nil =>
    rw [List.nil_append, List.dropWhile_cons, hy]
    simp
  | cons x xs ih =>
    rw [List.cons_append, List.dropWhile_cons, hxs x (by simp)]
    simp only [if_true]
    exact ih (fun a ha => hxs a (by simp [ha]))

theorem atoi_all_digits (l : List Char) (h : ∀ x ∈ l, isDigitChar x = true) :
    atoi l = digitsVal l := by
  unfold atoi
  rw [takeWhile_all _ _ h]

theorem padDigits (w : Nat) (l : List Char) (h : ∀ ch ∈ l, isDigitChar ch = true) :
    ∀ ch ∈ leftPad w '0' l, isDigitChar ch = true := by
  intro ch hch
  rcases List.mem_append.mp hch with hrep | hl
  · rcases (List.eq_of_mem_replicate hrep) with rfl
    decide
  · exact h ch hl

theorem atoi_leftPad (w n : Nat) :
    atoi (leftPad w '0' (decimalStr n)) = n := by
  rw [atoi_all_digits _ (padDigits w _ (decimalStr_digits n))]
  unfold leftPad
  rw [digitsVal_zero_pad, digitsVal_decimalStr]

theorem natToDigitsRev_length (fuel : Nat) :
    ∀ w n, n < 10 ^ w → (natToDigitsRev fuel n).length ≤ w := by
  induction fuel with
  | zero =>
    intro w n _
    simp [natToDigitsRev]
  | succ fuel ih =>
    intro w n hn
    rw [natToDigitsRev]
    by_cases h : n = 0
    · rw [if_pos h]
      simp
    · rw [if_neg h, List.length_cons]
      have hw : ¬ w = 0 := by
        intro h0
        rw [h0, pow_zero] at hn
        omega
      obtain ⟨w', rfl⟩ : ∃ w', w = w' + 1 := ⟨w - 1, by omega⟩
      have hdiv : n / 10 < 10 ^ w' := by
        rw [pow_succ] at hn
        omega
      have := ih w' (n / 10) hdiv
      omega

theorem leftPad_length (w : Nat) (c : Char) (l : List Char) (h : l.length ≤ w) :
    (leftPad w c l).length = w := by
  unfold leftPad
  rw [List.length_append, List.length_replicate]
  omega

theorem decimalStr_length (w : Nat) (n : Nat) (hw : 1 ≤ w) (hn : n < 10 ^ w) :
    (decimalStr n).length ≤ w := by
  unfold decimalStr
  by_cases h : n = 0
  · rw [if_pos h]
    simpa using hw
  · rw [if_neg h, List.length_reverse]
    exact natToDigitsRev_length n w n hn

theorem padNum_length (w n : Nat) (hw : 1 ≤ w) (hn : n < 10 ^ w) :
    (padNum w n).length = w :=
  leftPad_length w '0' _ (decimalStr_length w n hw hn)

theorem dateString_digits (dt : Date) :
    ∀ ch ∈ dateString dt, isDigitChar ch = true := by
  intro ch hch
  unfold dateString at hch
  rcases List.mem_append.mp hch with h12 | h3
  · rcases List.mem_append.mp h12 with h1 | h2
    · exact padDigits _ _ (decimalStr_digits _) ch h1
    · exact padDigits _ _ (decimalStr_digits _) ch h2
  · exact padDigits _ _ (decimalStr_digits _) ch h3

theorem dateString_length (y m d : Nat) (hy : y < 10000) (hm : m < 100)
    (hd : d < 100) : (dateString ⟨y, m, d⟩).length = 8 := by
  unfold dateString
  rw [List.length_append, List.length_append]
  rw [padNum_length 4 y (by norm_num) (by norm_num; omega),
    padNum_length 2 m (by norm_num) (by norm_num; omega),
    padNum_length 2 d (by norm_num) (by norm_num; omega)]

theorem splitChar_ne_nil (sep : Char) (l : List Char) : ¬ splitChar sep l = [] := by
  cases l with
  | nil => simp [splitChar]
  | cons c cs =>
    rw [splitChar]
    cases h : splitChar sep cs with
    | nil => simp
    | cons p ps =>
      by_cases hc : c = sep <;> simp [hc]

theorem splitChar_no_sep (sep : Char) (l : List Char) (h : ¬ sep ∈ l) :
    splitChar sep l = [l] := by
  induction l with
  | nil => rfl
  | cons c cs ih =>
    have hc : ¬ c = sep := fun hh => h (by simp [hh])
    have hcs : ¬ sep ∈ cs := fun hh => h (by simp [hh])
    rw [splitChar, ih hcs]
    simp [hc]

theorem splitChar_append_sep (sep : Char) (xs ys : List Char) (h : ¬ sep ∈ xs) :
    splitChar sep (xs ++ sep :: ys) = xs :: splitChar sep ys := by
  induction xs with
  | nil =>
    rw [List.nil_append, splitChar]
    cases hs : splitChar sep ys with
    | nil => exact absurd hs (splitChar_ne_nil sep ys)
    | cons p ps => simp
  | cons x xs ih =>
    have hx : ¬ x = sep := fun hh => h (by simp [hh])
    have hxs : ¬ sep ∈ xs := fun hh => h (by simp [hh])
    rw [List.cons_append, splitChar, ih hxs]
    simp [hx]

theorem getCleanFilename_no_sep (f : Str) (h : ¬ '/' ∈ f) :
    getCleanFilename f = f := by
  unfold getCleanFilename
  rw [takeWhile_all _ _ (fun x hx => by
    simp only [Bool.not_eq_true']
    exact decide_eq_false (fun hh => h (List.mem_reverse.mp (hh ▸ hx))))]
  exact List.reverse_reverse f

theorem getCleanFilename_append (b f : Str) (h : ¬ '/' ∈ f) :
    getCleanFilename (b ++ '/' :: f) = f := by
  unfold getCleanFilename
  rw [List.reverse_append, List.reverse_cons, List.append_assoc,
    List.singleton_append]
  rw [takeWhile_append_stop _ _ _ _ (fun x hx => by
    simp only [Bool.not_eq_true']
    exact decide_eq_false (fun hh => h (List.mem_reverse.mp (hh ▸ hx)))) (by decide)]
  exact List.reverse_reverse f

theorem getBaseFilename_ext (l : Str) (hs : ¬ '/' ∈ l) :
    getBaseFilename (l ++ ".json".toList) = l := by
  have hclean : getCleanFilename (l ++ ".json".toList) = l ++ ".json".toList :=
    getCleanFilename_no_sep _ (fun hh => by
      rcases List.mem_append.mp hh with h1 | h2
      · exact hs h1
      · simp at h2)
  unfold getBaseFilename
  rw [hclean]
  rw [if_pos (List.mem_append.mpr (Or.inr (by decide)))]
  have hrev : (l ++ ".json".toList).reverse =
      ['n', 'o', 's', 'j'] ++ '.' :: l.reverse := by
    rw [List.reverse_append]
    rfl
  rw [hrev]
  rw [dropWhile_append_stop _ ['n', 'o', 's', 'j'] _ '.' (by decide) (by decide)]
  rw [List.drop_one, List.tail_cons, List.reverse_reverse]

theorem padIntStr_nonneg (w : Nat) (i : ℤ) (h : 0 ≤ i) :
    padIntStr w i = leftPad w '0' (decimalStr i.toNat) := by
  unfold padIntStr
  rw [if_neg (by omega)]

theorem parse_genFileName (c : Str) (y m d : Nat) (idx : ℤ)
    (hcne : ¬ c = []) (hcu : ¬ '_' ∈ c)
    (hy : y < 10000) (hm : m < 100) (hd : d < 100) (hidx : 0 ≤ idx) :
    parseLogFileName (genFileName c (dateString ⟨y, m, d⟩) idx) =
      some (c, ⟨y, m, d⟩, idx) := by
  have hdigit_ne : ∀ (ch : Char), isDigitChar ch = true → ¬ ch = '_' := by
    intro ch hch hh
    rw [hh] at hch
    exact absurd hch (by decide)
  have hds_nu : ¬ '_' ∈ dateString ⟨y, m, d⟩ := fun hh =>
    hdigit_ne '_' (dateString_digits _ '_' hh) rfl
  have hpad : padIntStr 3 idx = leftPad 3 '0' (decimalStr idx.toNat) :=
    padIntStr_nonneg 3 idx hidx
  have hpad_digits : ∀ ch ∈ padIntStr 3 idx, isDigitChar ch = true := by
    rw [hpad]
    exact padDigits 3 _ (decimalStr_digits _)
  have hlast_nu : ¬ '_' ∈ padIntStr 3 idx ++ ".json".toList := fun hh => by
    rcases List.mem_append.mp hh with h1 | h2
    · exact hdigit_ne '_' (hpad_digits '_' h1) rfl
    · simp at h2
  have hname : genFileName c (dateString ⟨y, m, d⟩) idx =
      "ULM".toList ++ '_' :: (c ++ '_' :: (dateString ⟨y, m, d⟩ ++ '_' ::
        (padIntStr 3 idx ++ ".json".toList))) := rfl
  have hsplit : splitChar '_' (genFileName c (dateString ⟨y, m, d⟩) idx) =
      ["ULM".toList, c, dateString ⟨y, m, d⟩, padIntStr 3 idx ++ ".json".toList] := by
    rw [hname, splitChar_append_sep _ _ _ (by decide),
      splitChar_append_sep _ _ _ hcu,
      splitChar_append_sep _ _ _ hds_nu,
      splitChar_no_sep _ _ hlast_nu]
  have hparts : parseIntoArray '_' (genFileName c (dateString ⟨y, m, d⟩) idx) =
      ["ULM".toList, c, dateString ⟨y, m, d⟩, padIntStr 3 idx ++ ".json".toList] := by
    unfold parseIntoArray
    rw [hsplit]
    have hc : c.isEmpty = false := by
      cases c with
      | nil => exact absurd rfl hcne
      | cons a as => rfl
    have hdsne : (dateString ⟨y, m, d⟩).isEmpty = false := by
      have h8 : (dateString ⟨y, m, d⟩).length = 8 := dateString_length y m d hy hm hd
      cases hq : dateString ⟨y, m, d⟩ with
      | nil => rw [hq] at h8; simp at h8
      | cons a as => rfl
    have hlastne : (padIntStr 3 idx ++ ['.', 'j', 's', 'o', 'n']).isEmpty = false := by
      cases hq : padIntStr 3 idx with
      | nil => rfl
      | cons a as => rfl
    simp [List.filter, hc, hdsne, hlastne]
  have hds8 : (dateString ⟨y, m, d⟩).length = 8 := dateString_length y m d hy hm hd
  unfold parseLogFileName
  rw [hparts]
  dsimp only
  rw [if_neg (by norm_num)]
  rw [if_neg (by simp)]
  rw [if_neg (by simp [hds8])]
  have hdsdef : dateString ⟨y, m, d⟩ = padNum 4 y ++ (padNum 2 m ++ padNum 2 d) := by
    unfold dateString
    rw [List.append_assoc]
  have hlen4 : (padNum 4 y).length = 4 := padNum_length 4 y (by norm_num) (by omega)
  have hlenm : (padNum 2 m).length = 2 := padNum_length 2 m (by norm_num) (by omega)
  have htake4 : (dateString ⟨y, m, d⟩).take 4 = padNum 4 y := by
    have h := List.take_left (padNum 4 y) (padNum 2 m ++ padNum 2 d)
    rw [hlen4] at h
    rw [hdsdef]
    exact h
  have hdrop4 : (dateString ⟨y, m, d⟩).drop 4 = padNum 2 m ++ padNum 2 d := by
    have h := List.drop_left (padNum 4 y) (padNum 2 m ++ padNum 2 d)
    rw [hlen4] at h
    rw [hdsdef]
    exact h
  have htakem : ((dateString ⟨y, m, d⟩).drop 4).take 2 = padNum 2 m := by
    have h := List.take_left (padNum 2 m) (padNum 2 d)
    rw [hlenm] at h
    rw [hdrop4]
    exact h
  have hdrop6 : (dateString ⟨y, m, d⟩).drop 6 = padNum 2 d := by
    have h1 : List.drop 2 (List.drop 4 (dateString ⟨y, m, d⟩)) =
        List.drop 6 (dateString ⟨y, m, d⟩) := by
      rw [List.drop_drop]
    have h2 := List.drop_left (padNum 2 m) (padNum 2 d)
    rw [hlenm] at h2
    rw [← h1, hdrop4]
    exact h2
  simp only [List.getD_cons_zero, List.getD_cons_succ]
  rw [htake4, htakem, hdrop6]
  have hbase : getBaseFilename (padIntStr 3 idx ++ ".json".toList) = padIntStr 3 idx :=
    getBaseFilename_ext _ (fun hh => by
      have := hpad_digits '/' hh
      exact absurd this (by decide))
  rw [hbase, hpad]
  unfold padNum
  rw [atoi_leftPad, atoi_leftPad, atoi_leftPad, atoi_leftPad]
  rw [Int.toNat_of_nonneg hidx]

theorem setFileActive_eq (t : Tracker) (c p : Str) (fs : List LogFileInfo)
    (hf : alFind? c t = some fs) :
    setFileActive t c p = alEmplace c (activateFirst p (deactivateAll fs)) t := by
  unfold setFileActive
  rw [hf]

theorem rotIndexFold (ds : Str) (N : ℤ) :
    ∀ (fs : List LogFileInfo) (ni : ℤ),
      (∀ f ∈ fs, dateString f.creationDate = ds → f.fileIndex ≤ N) →
      ni ≤ N + 1 →
      ((∃ f, f ∈ fs ∧ dateString f.creationDate = ds ∧ f.fileIndex = N) ∨ ni = N + 1) →
      List.foldl
        (fun ni f =>
          if dateString f.creationDate = ds ∧ ni ≤ f.fileIndex then f.fileIndex + 1
          else ni)
        ni fs = N + 1 := by
  intro fs
  induction fs with
  | nil =>
    intro ni _ _ hdisj
    rcases hdisj with ⟨f, hf, _⟩ | h
    · exact absurd hf (List.not_mem_nil f)
    · simpa using h
  | cons g gs ih =>
    intro ni hmax hle hdisj
    rw [List.foldl_cons]
    by_cases hcond : dateString g.creationDate = ds ∧ ni ≤ g.fileIndex
    · rw [if_pos hcond]
      have hgN : g.fileIndex ≤ N := hmax g (by simp) hcond.1
      apply ih _ (fun f hf hdf => hmax f (by simp [hf]) hdf) (by omega)
      by_cases hgEq : g.fileIndex = N
      · right
        omega
      · rcases hdisj with ⟨f, hf, hfd, hfN⟩ | h
        · rcases List.mem_cons.mp hf with rfl | hf'
          · exact (hgEq hfN).elim
          · exact Or.inl ⟨f, hf', hfd, hfN⟩
        · exfalso
          omega
    · rw [if_neg hcond]
      apply ih _ (fun f hf hdf => hmax f (by simp [hf]) hdf) hle
      rcases hdisj with ⟨f, hf, hfd, hfN⟩ | h
      · rcases List.mem_cons.mp hf with rfl | hf'
        · right
          have hni : ¬ ni ≤ f.fileIndex := fun hh => hcond ⟨hfd, hh⟩
          omega
        · exact Or.inl ⟨f, hf', hfd, hfN⟩
      · exact Or.inr h

theorem registerFileList_fresh (c p : Str) (dt : Date) (i : ℤ)
    (fs : List LogFileInfo) (h : ∀ f ∈ fs, ¬ f.filePath = p) :
    registerFileList c p dt i fs = fs ++ [newLogFileInfo p c dt i] := by
  induction fs with
  | nil => rfl
  | cons g gs ih =>
    rw [registerFileList, if_neg (h g (by simp))]
    rw [ih (fun f hf => h f (by simp [hf]))]
    rfl

theorem activateFirst_append_no_match (p : Str) (xs ys : List LogFileInfo)
    (h : ∀ f ∈ xs, ¬ f.filePath = p) :
    activateFirst p (xs ++ ys) = xs ++ activateFirst p ys := by
  induction xs with
  | nil => rfl
  | cons g gs ih =>
    rw [List.cons_append, activateFirst, if_neg (h g (by simp))]
    rw [ih (fun f hf => h f (by simp [hf]))]
    rfl

theorem deactivateAll_inactive (xs : List LogFileInfo) :
    ∀ f ∈ deactivateAll xs, f.isActive = false := by
  intro f hf
  rcases List.mem_map.mp hf with ⟨g, _, rfl⟩
  rfl

theorem deactivateAll_paths (xs : List LogFileInfo) :
    (deactivateAll xs).map (fun f => f.filePath) = xs.map (fun f => f.filePath) := by
  unfold deactivateAll
  rw [List.map_map]
  rfl

theorem activateFirst_paths (p : Str) (xs : List LogFileInfo) :
    (activateFirst p xs).map (fun f => f.filePath) = xs.map (fun f => f.filePath) := by
  induction xs with
  | nil => rfl
  | cons g gs ih =>
    rw [activateFirst]
    by_cases h : g.filePath = p
    · rw [if_pos h]
      rfl
    · rw [if_neg h, List.map_cons, List.map_cons, ih]

theorem find?_append_none (p : LogFileInfo → Bool) (xs ys : List LogFileInfo)
    (h : ∀ x ∈ xs, p x = false) :
    (xs ++ ys).find? p = ys.find? p := by
  induction xs with
  | nil => rfl
  | cons g gs ih =>
    rw [List.cons_append, List.find?_cons, h g (by simp)]
    exact ih (fun x hx => h x (by simp [hx]))

theorem path_of_mem_preserved (p : Str) (xs ys : List LogFileInfo)
    (hpaths : ys.map (fun f => f.filePath) = xs.map (fun f => f.filePath))
    (h : ∀ f ∈ xs, ¬ f.filePath = p) :
    ∀ f ∈ ys, ¬ f.filePath = p := by
  intro f hf hfp
  have hmem : f.filePath ∈ ys.map (fun f => f.filePath) :=
    List.mem_map_of_mem _ hf
  rw [hpaths] at hmem
  rcases List.mem_map.mp hmem with ⟨g, hg, hgp⟩
  exact h g hg (hgp.trans hfp)

/-- C8: when the channel's active file (registered today with index N, the
highest index for that channel and day) has reached the configured maximum
size, `ShouldRotateFile` triggers; `RotateFile` returns the path
`<base>/ULM_<channel>_<YYYYMMDD>_<NNN>.json` with index N+1, the rotated
tracker's only active file for the channel is the newly registered one
(size 0, index N+1) at that path — every other tracked file is inactive —
and every subsequent `GetActiveFilePath` lookup for the channel returns
the new path. -/
theorem claim_C8_rotation (r : Rotator) (c currentPath : Str) (y m d : Nat) (N : ℤ)
    (f0 : LogFileInfo)
    (hcfg : 0 < r.config.maxFileSizeBytes ∧ 0 < r.config.retentionDays)
    (hcne : ¬ c = []) (hcu : ¬ '_' ∈ c) (hcs : ¬ '/' ∈ c)
    (hy : y < 10000) (hm : m < 100) (hd : d < 100) (hN : 0 ≤ N)
    (hact : getActiveFile r.fileTracker c = some f0)
    (hsize : r.config.maxFileSizeBytes ≤ f0.fileSize)
    (hidx : f0.fileIndex = N)
    (hdate : dateString f0.creationDate = dateString ⟨y, m, d⟩)
    (hmax : ∀ f ∈ filesOf r.fileTracker c,
      dateString f.creationDate = dateString ⟨y, m, d⟩ → f.fileIndex ≤ N)
    (hfresh : ∀ f ∈ filesOf r.fileTracker c,
      ¬ f.filePath =
        generateRotatedFilePath r.fileTracker c (getPath currentPath) ⟨y, m, d⟩) :
    shouldRotateTracker r.fileTracker c r.config.maxFileSizeBytes = true ∧
      (rotateFile r ⟨y, m, d⟩ c currentPath).1 =
        getPath currentPath ++ '/' :: genFileName c (dateString ⟨y, m, d⟩) (N + 1) ∧
      getActiveFile (rotateFile r ⟨y, m, d⟩ c currentPath).2.fileTracker c =
        some { filePath := (rotateFile r ⟨y, m, d⟩ c currentPath).1
               channelName := c, creationDate := ⟨y, m, d⟩, fileSize := 0
               fileIndex := N + 1, isActive := true } ∧
      (∀ f ∈ filesOf (rotateFile r ⟨y, m, d⟩ c currentPath).2.fileTracker c,
        ¬ f.filePath = (rotateFile r ⟨y, m, d⟩ c currentPath).1 →
          f.isActive = false) ∧
      ∀ base2,
        getActiveFilePath (rotateFile r ⟨y, m, d⟩ c currentPath).2 c base2 ⟨y, m, d⟩ =
          (rotateFile r ⟨y, m, d⟩ c currentPath).1 := by
  set NP := getPath currentPath ++ '/' :: genFileName c (dateString ⟨y, m, d⟩) (N + 1)
    with hNP
  have hf0mem : f0 ∈ filesOf r.fileTracker c := List.mem_of_find?_eq_some hact
  have hf0act : f0.isActive = true := List.find?_some hact
  have hshould : shouldRotateTracker r.fileTracker c r.config.maxFileSizeBytes = true := by
    unfold shouldRotateTracker
    rw [List.any_eq_true]
    refine ⟨f0, hf0mem, ?_⟩
    rw [hf0act]
    simp [hsize]
  have hgen : generateRotatedFilePath r.fileTracker c (getPath currentPath) ⟨y, m, d⟩ =
      NP := by
    unfold generateRotatedFilePath
    dsimp only
    rw [rotIndexFold (dateString ⟨y, m, d⟩) N (filesOf r.fileTracker c) 1 hmax (by omega)
      (Or.inl ⟨f0, hf0mem, hdate, hidx⟩)]
  have hpadd : ∀ ch ∈ padIntStr 3 (N + 1), isDigitChar ch = true := by
    rw [padIntStr_nonneg 3 (N + 1) (by omega)]
    exact padDigits 3 _ (decimalStr_digits _)
  have hnosep : ¬ '/' ∈ genFileName c (dateString ⟨y, m, d⟩) (N + 1) := by
    intro hh
    unfold genFileName at hh
    rcases List.mem_append.mp hh with h1 | h2
    · rcases List.mem_append.mp h1 with h3 | h4
      · exact absurd h3 (by decide)
      · exact hcs h4
    · rcases List.mem_cons.mp h2 with h5 | h6
      · exact absurd h5 (by decide)
      · rcases List.mem_append.mp h6 with h7 | h8
        · exact absurd (dateString_digits _ '/' h7) (by decide)
        · rcases List.mem_cons.mp h8 with h9 | h10
          · exact absurd h9 (by decide)
          · rcases List.mem_append.mp h10 with h11 | h12
            · exact absurd (hpadd '/' h11) (by decide)
            · exact absurd h12 (by decide)
  have hcleanp : getCleanFilename NP = genFileName c (dateString ⟨y, m, d⟩) (N + 1) :=
    getCleanFilename_append _ _ hnosep
  have hparse : parseLogFileName (genFileName c (dateString ⟨y, m, d⟩) (N + 1)) =
      some (c, ⟨y, m, d⟩, N + 1) :=
    parse_genFileName c y m d (N + 1) hcne hcu hy hm hd (by omega)
  obtain ⟨fs, hfs⟩ : ∃ fs, alFind? c r.fileTracker = some fs := by
    cases hq : alFind? c r.fileTracker with
    | none =>
      exfalso
      have hempty : filesOf r.fileTracker c = [] := by
        unfold filesOf
        rw [hq]
        rfl
      rw [hempty] at hf0mem
      exact absurd hf0mem (List.not_mem_nil f0)
    | some fs => exact ⟨fs, rfl⟩
  have hfilesOf : filesOf r.fileTracker c = fs := by
    unfold filesOf
    rw [hfs]
    rfl
  have hfresh' : ∀ f ∈ fs, ¬ f.filePath = NP := by
    intro f hf
    have h := hfresh f (by rw [hfilesOf]; exact hf)
    rw [hgen] at h
    exact h
  have hrot : rotateFile r ⟨y, m, d⟩ c currentPath =
      (NP,
       { r with
           fileTracker :=
             setFileActive
               (registerFile (setFileActive r.fileTracker c []) c NP ⟨y, m, d⟩ (N + 1))
               c NP
           totalRotations := r.totalRotations + 1 }) := by
    unfold rotateFile
    rw [if_neg (not_not_intro hcfg)]
    dsimp only
    rw [hgen, hcleanp, hparse]
  have ht1 : setFileActive r.fileTracker c [] =
      alEmplace c (activateFirst [] (deactivateAll fs)) r.fileTracker :=
    setFileActive_eq r.fileTracker c [] fs hfs
  have ht1files : filesOf (setFileActive r.fileTracker c []) c =
      activateFirst [] (deactivateAll fs) := by
    rw [ht1]
    unfold filesOf
    rw [alFind?_emplace_self]
    rfl
  have hfpaths1 : ∀ f ∈ activateFirst [] (deactivateAll fs), ¬ f.filePath = NP :=
    path_of_mem_preserved NP fs _
      (by rw [activateFirst_paths, deactivateAll_paths]) hfresh'
  have hreg : registerFileList c NP ⟨y, m, d⟩ (N + 1)
      (activateFirst [] (deactivateAll fs)) =
      activateFirst [] (deactivateAll fs) ++ [newLogFileInfo NP c ⟨y, m, d⟩ (N + 1)] :=
    registerFileList_fresh _ _ _ _ _ hfpaths1
  have ht2find : alFind? c
      (registerFile (setFileActive r.fileTracker c []) c NP ⟨y, m, d⟩ (N + 1)) =
      some (activateFirst [] (deactivateAll fs) ++
        [newLogFileInfo NP c ⟨y, m, d⟩ (N + 1)]) := by
    unfold registerFile
    rw [alFind?_emplace_self, ht1files, hreg]
  have hdeact2 : deactivateAll (activateFirst [] (deactivateAll fs) ++
      [newLogFileInfo NP c ⟨y, m, d⟩ (N + 1)]) =
      deactivateAll (activateFirst [] (deactivateAll fs)) ++
        [newLogFileInfo NP c ⟨y, m, d⟩ (N + 1)] := by
    unfold deactivateAll
    rw [List.map_append]
    rfl
  have hdeact2' : ∀ f ∈ deactivateAll (activateFirst [] (deactivateAll fs)),
      ¬ f.filePath = NP :=
    path_of_mem_preserved NP fs _
      (by rw [deactivateAll_paths, activateFirst_paths, deactivateAll_paths]) hfresh'
  have hactfirst : activateFirst NP
      (deactivateAll (activateFirst [] (deactivateAll fs)) ++
        [newLogFileInfo NP c ⟨y, m, d⟩ (N + 1)]) =
      deactivateAll (activateFirst [] (deactivateAll fs)) ++
        [{ filePath := NP, channelName := c, creationDate := ⟨y, m, d⟩, fileSize := 0
           fileIndex := N + 1, isActive := true }] := by
    rw [activateFirst_append_no_match NP _ _ hdeact2']
    rw [activateFirst,
      if_pos (show (newLogFileInfo NP c ⟨y, m, d⟩ (N + 1)).filePath = NP from rfl)]
    rfl
  have ht3find : alFind? c
      (setFileActive
        (registerFile (setFileActive r.fileTracker c []) c NP ⟨y, m, d⟩ (N + 1))
        c NP) =
      some (deactivateAll (activateFirst [] (deactivateAll fs)) ++
        [{ filePath := NP, channelName := c, creationDate := ⟨y, m, d⟩, fileSize := 0
           fileIndex := N + 1, isActive := true }]) := by
    rw [setFileActive_eq _ _ _ _ ht2find]
    rw [alFind?_emplace_self, hdeact2, hactfirst]
  have hfiles3 : filesOf
      (setFileActive
        (registerFile (setFileActive r.fileTracker c []) c NP ⟨y, m, d⟩ (N + 1))
        c NP) c =
      deactivateAll (activateFirst [] (deactivateAll fs)) ++
        [{ filePath := NP, channelName := c, creationDate := ⟨y, m, d⟩, fileSize := 0
           fileIndex := N + 1, isActive := true }] := by
    unfold filesOf
    rw [ht3find]
    rfl
  have hgetact : getActiveFile
      (setFileActive
        (registerFile (setFileActive r.fileTracker c []) c NP ⟨y, m, d⟩ (N + 1))
        c NP) c =
      some { filePath := NP, channelName := c, creationDate := ⟨y, m, d⟩, fileSize := 0
             fileIndex := N + 1, isActive := true } := by
    unfold getActiveFile
    rw [hfiles3]
    rw [find?_append_none _ _ _ (fun x hx => deactivateAll_inactive _ x hx)]
    rfl
  refine ⟨hshould, ?_, ?_, ?_, ?_⟩
  · rw [hrot]
  · rw [hrot]
    dsimp only
    exact hgetact
  · rw [hrot]
    dsimp only
    intro f hf hfp
    rw [hfiles3] at hf
    rcases List.mem_append.mp hf with hin | hnew
    · exact deactivateAll_inactive _ f hin
    · rcases List.mem_singleton.mp hnew with rfl
      exact absurd rfl hfp
  · intro base2
    rw [hrot]
    dsimp only
    unfold getActiveFilePath
    rw [hgetact]

set_option maxRecDepth 20000 in
/-- Witness for C8 at a concrete tracker: the 100 MB `Gameplay` file of
2024-01-01 with index 1 triggers rotation, and the returned path carries
index 2. -/
theorem claim_C8_rotation_witness :
    shouldRotateTracker w8Rotator.fileTracker "Gameplay".toList
        w8Rotator.config.maxFileSizeBytes = true ∧
      (rotateFile w8Rotator ⟨2024, 1, 1⟩ "Gameplay".toList
          "/logs/current.json".toList).1 =
        getPath "/logs/current.json".toList ++ '/' ::
          genFileName "Gameplay".toList (dateString ⟨2024, 1, 1⟩) ((1 : ℤ) + 1) :=
  have h := claim_C8_rotation w8Rotator "Gameplay".toList "/logs/current.json".toList
    2024 1 1 1 w8File (by decide) (by decide) (by decide) (by decide) (by decide)
    (by decide) (by decide) (by decide) (by decide) (by decide) (by decide)
    (by decide) (by decide) (by decide)
  ⟨h.1, h.2.1⟩

end ULM
